import Mathlib

/-!
# angular-dms: degrees-minutes-seconds angles

A shallow embedding of `src/angular-dms.js` (the `Dms` constructor, `Dms.prototype.toString`,
`Dms.parse`, `Dms.prototype.toDecimal`, the helper `isNumeric` and the `angle` filter)
together with the properties of it that are established below.

Conventions of the embedding.

* A JavaScript number is a `JSNum`: `NaN`, one of the two infinities, or a finite value.
  Finite values are rationals and arithmetic on them is exact: rounding to binary64 is not
  modelled, so there is no negative zero. The one place where the range of binary64 shows is
  the conversion of a literal in a text to a number (`numberOfLiteral`): from `2^1024 - 2^970`
  on it gives an infinity, as in the source; below that the value is kept exact, which is
  the value the source computes for every natural number up to `2^53`.
* A JavaScript string is a `String`; the functions that scan text work on its list of
  characters. Every character that matters to the source (the digits `0`-`9`, `.`, `-`, `+`,
  `e`) is a single UTF-16 unit, and any other character is treated the same way by the
  source whether it is one unit or two.
* A `throw` is the `error` branch of `Except String`; `undefined` as a returned value is
  `none`.
-/

namespace AngularDms

/-! ## Numbers and values -/

/-- A JavaScript number: not-a-number, an infinity, or a finite (exact) value. -/
inductive JSNum where
  | nan
  | posInf
  | negInf
  | fin (q : ℚ)
deriving DecidableEq

/-- An argument of a call: a number, or `undefined` (which is also what a missing argument
reads as). -/
inductive JSVal where
  | undefined
  | num (n : JSNum)
deriving DecidableEq

/-- The unary plus of the source, `+v` (ToNumber): `undefined` becomes `NaN`. -/
def toNumber : JSVal → JSNum
  | .undefined => .nan
  | .num n => n

/-- The global `parseFloat(v)`. Its argument is first converted to a string; `undefined`
reads "undefined" and gives `NaN`, and the text of a number reads back as that number. -/
def parseFloat : JSVal → JSNum
  | .undefined => .nan
  | .num n => n

/-- The global `isNaN(n)`, on a number. -/
def isNaN : JSNum → Bool
  | .nan => true
  | _ => false

/-- The global `isFinite(v)`: the argument is converted with ToNumber and must be neither
`NaN` nor an infinity. -/
def isFinite (v : JSVal) : Bool :=
  match toNumber v with
  | .fin _ => true
  | _ => false

/-- Source lines 105-107:
`function isNumeric (n) { return !isNaN(parseFloat(n)) && isFinite(n); }`. -/
def isNumeric (n : JSVal) : Bool :=
  !isNaN (parseFloat n) && isFinite n

/-- The comparison `a >= b` against a finite constant `b`; false on `NaN`. -/
def JSNum.ge (a : JSNum) (b : ℚ) : Bool :=
  match a with
  | .nan => false
  | .posInf => true
  | .negInf => false
  | .fin q => decide (b ≤ q)

/-- The comparison `a < b` against a finite constant `b`; false on `NaN`. -/
def JSNum.lt (a : JSNum) (b : ℚ) : Bool :=
  match a with
  | .nan => false
  | .posInf => false
  | .negInf => true
  | .fin q => decide (q < b)

/-- The comparison `a == b` against a finite constant `b`. -/
def JSNum.eqNum (a : JSNum) (b : ℚ) : Bool :=
  match a with
  | .fin q => decide (q = b)
  | _ => false

/-- `Math.abs` on a number. -/
def JSNum.abs : JSNum → JSNum
  | .nan => .nan
  | .posInf => .posInf
  | .negInf => .posInf
  | .fin q => .fin |q|

/-- The unary minus on a number. -/
def JSNum.neg : JSNum → JSNum
  | .nan => .nan
  | .posInf => .negInf
  | .negInf => .posInf
  | .fin q => .fin (-q)

/-- The least value of a literal that binary64 rounds to an infinity: `2^1024 - 2^970`,
half a unit in the last place above the largest finite value `2^1024 - 2^971`. -/
def overflowBound : ℚ := 2 ^ 1024 - 2 ^ 970

/-- The number that an unsigned literal of value `q` converts to: `Infinity` when binary64
overflows, the exact value `q` otherwise (rounding to the nearest binary64 value is not
modelled). -/
def numberOfLiteral (q : ℚ) : JSNum :=
  if overflowBound ≤ q then .posInf else .fin q

/-! ## The angle object -/

/-- The object built by `new Dms(...)`: the four properties the constructor assigns. Each is
assigned only after `isNumeric` held of it, so each is a finite number. -/
structure Dms where
  degs : ℚ
  mins : ℚ
  secs : ℚ
  sign : ℚ
deriving DecidableEq

/-- The data-model constraints of an angle: the ones the component constructor tests. -/
def Dms.Valid (a : Dms) : Prop :=
  0 ≤ a.degs ∧ (0 ≤ a.mins ∧ a.mins < 60) ∧ (0 ≤ a.secs ∧ a.secs < 60) ∧
    (a.sign = 1 ∨ a.sign = -1)

instance (a : Dms) : Decidable a.Valid := by
  unfold Dms.Valid; infer_instance

/-- Source lines 2-42: the constructor `Dms(degs, mins, secs, sign)`, called with the
argument list `args`. With exactly one argument it decomposes a decimal value (lines 4-14);
otherwise it validates the four components in turn and throws at the first one that fails
(lines 16-41). A guard such as `isNumeric(degs) && +degs >= 0` is matched together with the
number `+degs`, whose finite value is what gets stored. -/
def Dms.new (args : List JSVal) : Except String Dms :=
  let degs := args.getD 0 .undefined
  let mins := args.getD 1 .undefined
  let secs := args.getD 2 .undefined
  let sign := args.getD 3 .undefined
  if args.length == 1 then
    match isNumeric degs, toNumber degs with
    | true, .fin v =>
      let thisSign : ℚ := if v < 0 then -1 else 1
      let degs : ℚ := |v|
      let thisDegs : ℚ := (⌊degs⌋ : ℤ)
      let thisMins : ℚ := (⌊(degs - thisDegs) * 60⌋ : ℤ)
      let thisSecs : ℚ := (degs - thisDegs - thisMins / 60) * 60 * 60
      .ok { degs := thisDegs, mins := thisMins, secs := thisSecs, sign := thisSign }
    | _, _ => .error "Degrees argument to Dms() must be numeric."
  else
    match isNumeric degs && (toNumber degs).ge 0, toNumber degs with
    | true, .fin d =>
      match isNumeric mins && (toNumber mins).ge 0 && (toNumber mins).lt 60, toNumber mins with
      | true, .fin m =>
        match isNumeric secs && (toNumber secs).ge 0 && (toNumber secs).lt 60,
            toNumber secs with
        | true, .fin s =>
          match isNumeric sign && ((toNumber sign).eqNum 1 || (toNumber sign).eqNum (-1)),
              toNumber sign with
          | true, .fin g => .ok { degs := d, mins := m, secs := s, sign := g }
          | _, _ => .error "Sign argument to Dms() must be 1 or -1."
        | _, _ => .error "Seconds argument to Dms() must be a number gte 0 and lt 60."
      | _, _ => .error "Minutes argument to Dms() must be a number gte 0 and lt 60."
    | _, _ => .error "Degrees argument to Dms() must be a non-negative number."

/-- Source lines 87-92, `Dms.prototype.toDecimal`: the value
`this.sign * (this.degs + (this.mins / 60.0) + (this.secs / 3600.0))`. The `_dms` property
set on the temporary `Number` object is dropped by the unary plus of the `return`. -/
def Dms.toDecimal (a : Dms) : ℚ :=
  a.sign * (a.degs + (a.mins / 60) + (a.secs / 3600))

/-- The call `new Dms(degs, mins, secs, sign)` on four finite numbers. -/
def componentArgs (d m s g : ℚ) : List JSVal :=
  [.num (.fin d), .num (.fin m), .num (.fin s), .num (.fin g)]

/-! ## Text to number -/

/-- The value of a run of decimal digits, most significant first. -/
def digitsVal (ds : List Char) : ℕ :=
  ds.foldl (fun acc c => 10 * acc + (c.toNat - 48)) 0

/-- The mantissa of a decimal literal (the grammar's StrUnsignedDecimalLiteral without its
exponent part): `digits`, `digits.`, `digits.digits` or `.digits`. -/
def mantissa? (cs : List Char) : Option ℚ :=
  match cs.span Char.isDigit with
  | (ip, []) => if ip.isEmpty then none else some (digitsVal ip)
  | (ip, '.' :: fp) =>
    if fp.all Char.isDigit && !(ip.isEmpty && fp.isEmpty) then
      some (digitsVal ip + digitsVal fp / 10 ^ fp.length)
    else none
  | _ => none

/-- The exponent part of a decimal literal, after its `e`: an optional sign and at least one
digit. -/
def exponent? (cs : List Char) : Option ℤ :=
  match cs with
  | '-' :: ds => if !ds.isEmpty && ds.all Char.isDigit then some (-(digitsVal ds : ℤ)) else none
  | '+' :: ds => if !ds.isEmpty && ds.all Char.isDigit then some (digitsVal ds : ℤ) else none
  | ds => if !ds.isEmpty && ds.all Char.isDigit then some (digitsVal ds : ℤ) else none

/-- An unsigned decimal literal: a mantissa, then possibly `e` or `E` and an exponent. -/
def unsignedDecimal? (cs : List Char) : Option ℚ :=
  match cs.span (fun c => !(c == 'e' || c == 'E')) with
  | (ms, []) => mantissa? ms
  | (ms, _ :: es) =>
    match mantissa? ms, exponent? es with
    | some q, some k => some (q * (10 : ℚ) ^ k)
    | _, _ => none

/-- ToNumber on a string (the grammar's StringNumericLiteral), for the strings this program
converts: the pieces cut out by the split in `Dms.parse`, made of digits, `.` and `-`, and the
result of `toFixed`. The empty string is `0`; a decimal literal with an optional sign is its
value, or an infinity when the value overflows binary64; anything else is `NaN`. White space,
`Infinity` and the `0x`, `0o`, `0b` literals, which none of those strings contains, are not
recognised. -/
def stringToNumber (cs : List Char) : JSNum :=
  match cs with
  | [] => .fin 0
  | '-' :: r =>
    match unsignedDecimal? r with
    | some q => (numberOfLiteral q).neg
    | none => .nan
  | '+' :: r =>
    match unsignedDecimal? r with
    | some q => numberOfLiteral q
    | none => .nan
  | _ =>
    match unsignedDecimal? cs with
    | some q => numberOfLiteral q
    | none => .nan

/-! ## Splitting -/

/-- The result of `str.split(d)` for a one-character string `d`: the pieces between the
occurrences of `d`, so one more piece than there are occurrences. -/
def splitOnChar (d : Char) : List Char → List (List Char)
  | [] => [[]]
  | c :: cs =>
    match splitOnChar d cs with
    | [] => [[]]
    | t :: ts => if c == d then [] :: t :: ts else (c :: t) :: ts

/-- A character matched by the class `[^\d\.\-]`: anything but a digit `0`-`9`, `.` or `-`. -/
def isSep (c : Char) : Bool :=
  !(c.isDigit || c == '.' || c == '-')

/-- The result of `str.split(/[^\d\.\-]+/)` on a non-empty string: the pieces between the
maximal runs of separator characters. A run at the very start leaves an empty first piece and
a run at the very end an empty last piece. -/
def splitSeparators : List Char → List (List Char)
  | [] => [[]]
  | c :: cs =>
    match splitSeparators cs with
    | [] => [[]]
    | t :: ts =>
      if isSep c then
        match cs with
        | c2 :: _ => if isSep c2 then t :: ts else [] :: t :: ts
        | [] => [] :: t :: ts
      else (c :: t) :: ts

/-! ## Parsing -/

/-- Source lines 75-77, the local function of `Dms.parse`:
`function f (n) { return angular.isDefined(n) ? Math.abs(n) : 0; }`, where `n` is an element
of the array of pieces, or `undefined` past its end. -/
def parseF (n : Option (List Char)) : JSNum :=
  match n with
  | some tok => (stringToNumber tok).abs
  | none => .fin 0

/-- Source lines 60-83, `Dms.parse(str)`, for `str` a string or `undefined` (`none`). The
`try` block runs the constructor on four arguments; the empty `catch` turns what it throws
into the `undefined` that the function then returns. -/
def Dms.parse (str : Option String) : Except String (Option Dms) :=
  match str with
  | none => .ok none
  | some str =>
    if str.data.isEmpty then .ok none
    else
      let negs := (splitOnChar '-' str.data).length - 1
      if negs > 1 then .ok none
      else
        let dms := splitSeparators str.data
        let sign : ℚ := if negs ≠ 0 then -1 else 1
        match Dms.new [.num (parseF (dms.get? 0)), .num (parseF (dms.get? 1)),
            .num (parseF (dms.get? 2)), .num (.fin sign)] with
        | .ok a => .ok (some a)
        | .error _ => .ok none

/-! ## Number to text -/

/-- Number::toString on a non-negative integer. Below `10^21` it is the decimal digits; from
`10^21` on it is the exponent form, the digits without their trailing zeros, a `.` after the
first when there are several, then `e+` and the number of digits less one. -/
def natToString (n : ℕ) : String :=
  let ds := Nat.toDigits 10 n
  if n < 10 ^ 21 then String.mk ds
  else
    let s := (ds.reverse.dropWhile (fun c => c == '0')).reverse
    let e := Nat.toDigits 10 (ds.length - 1)
    match s with
    | [] => String.mk ds
    | [c] => String.mk (c :: 'e' :: '+' :: e)
    | c :: rest => String.mk (c :: '.' :: rest ++ 'e' :: '+' :: e)

/-- Number::toString, what string concatenation applies to a number. An integer is rendered
by `natToString`, with a leading `-` when negative. The rendering of a non-integral value is
the shortest decimal text that reads back as the same binary64 value, which has no exact
counterpart: it is the parameter `fracStr` (a decimal or exponent literal). -/
def numberToString (fracStr : ℚ → String) (q : ℚ) : String :=
  if q.den = 1 then
    if q < 0 then "-" ++ natToString q.num.natAbs else natToString q.num.natAbs
  else fracStr q

/-- The method `x.toFixed(fractionDigits)` on a finite number. More than 100 fraction digits
is a RangeError. A magnitude of `10^21` or more is rendered as by Number::toString. Otherwise
`n` is the integer nearest to `x * 10^f`, the larger one on a tie, and the result is its
digits with a `.` before the last `f` of them, padded with zeros on the left to `f + 1`
digits. -/
def toFixed (fracStr : ℚ → String) (x : ℚ) (fractionDigits : ℕ) : Except String String :=
  let f := fractionDigits
  if f > 100 then .error "RangeError: toFixed() digits argument must be between 0 and 100"
  else
    let s := if x < 0 then "-" else ""
    let x := if x < 0 then -x else x
    if x ≥ 10 ^ 21 then .ok (s ++ numberToString fracStr x)
    else
      let n : ℕ := ⌊x * 10 ^ f + 1 / 2⌋.toNat
      let m := Nat.toDigits 10 n
      if f ≠ 0 then
        let k := m.length
        let m := if k ≤ f then List.replicate (f + 1 - k) '0' ++ m else m
        let k := if k ≤ f then f + 1 else k
        let a := m.take (k - f)
        let b := m.drop (k - f)
        .ok (s ++ String.mk (a ++ '.' :: b))
      else .ok (s ++ String.mk m)

/-! ## Formatting -/

/-- A value that is either a number or a string: what `normalize` is applied to. -/
inductive NumOrStr where
  | num (q : ℚ)
  | str (s : String)
deriving DecidableEq

/-- Source lines 51-53, the local function of `toString`:
`function normalize (n) { return +n == 60 ? 0 : n; }`. -/
def normalize (n : NumOrStr) : NumOrStr :=
  match n with
  | .num q => if q = 60 then .num 0 else .num q
  | .str s => if (stringToNumber s.data).eqNum 60 then .num 0 else .str s

/-- The text a value contributes to a string concatenation. -/
def NumOrStr.text (fracStr : ℚ → String) : NumOrStr → String
  | .num q => numberToString fracStr q
  | .str s => s

/-- Source lines 46-56, `Dms.prototype.toString(fractionSize)`. -/
def Dms.toString (fracStr : ℚ → String) (a : Dms) (fractionSize : ℕ) : Except String String :=
  match toFixed fracStr a.secs fractionSize with
  | .error e => .error e
  | .ok s =>
    let m := a.mins + (if s == "60" then 1 else 0)
    let d := a.degs + (if s == "60" then 1 else 0)
    .ok ((if a.sign < 0 then "-" else "") ++ numberToString fracStr d ++ "°" ++
      (normalize (.num m)).text fracStr ++ "'" ++ (normalize (.str s)).text fracStr ++ "\"")

/-- The call `new Dms(v)` on one finite number. -/
def decimalArgs (v : ℚ) : List JSVal :=
  [.num (.fin v)]

/-! ## Well-formed text -/

/-- A decimal numeral of a natural number: a non-empty run of digits `0`-`9`. Its value is
`digitsVal`. -/
def isNumeral (ds : List Char) : Bool :=
  !ds.isEmpty && ds.all Char.isDigit

/-- A non-empty run of separator characters. -/
def isSepRun (p : List Char) : Bool :=
  !p.isEmpty && p.all isSep

/-- The decimal numeral of `10^309`, a `1` followed by 309 zeros: a natural number whose
numeral is beyond the range of binary64. -/
def hugeNumeral : List Char :=
  '1' :: List.replicate 309 '0'

/-- The text `toFixed` gives a non-negative number below `10^21` whose scaled value rounds to
`n`: the digits of `n` with a `.` before the last `f` of them, padded with zeros on the left
to `f + 1` digits; the digits alone when `f = 0`. -/
def fixedText (n f : ℕ) : String :=
  let m := Nat.toDigits 10 n
  if f ≠ 0 then
    let k := m.length
    let m := if k ≤ f then List.replicate (f + 1 - k) '0' ++ m else m
    let k := if k ≤ f then f + 1 else k
    String.mk (m.take (k - f) ++ '.' :: m.drop (k - f))
  else String.mk m

/-! ## The `angle` filter -/

/-- The white space and line terminators that ToNumber and `parseFloat` strip from a
string. -/
def isStrWhiteSpace (c : Char) : Bool :=
  let n := c.toNat
  n == 9 || n == 10 || n == 11 || n == 12 || n == 13 || n == 32 || n == 160 || n == 5760 ||
    (decide (8192 ≤ n) && decide (n ≤ 8202)) || n == 8232 || n == 8233 || n == 8239 ||
    n == 8287 || n == 12288 || n == 65279

/-- The value of a digit of a radix literal: `0`-`9`, `a`-`f` or `A`-`F`. -/
def radixDigit? (c : Char) : Option ℕ :=
  let n := c.toNat
  if 48 ≤ n ∧ n ≤ 57 then some (n - 48)
  else if 97 ≤ n ∧ n ≤ 102 then some (n - 87)
  else if 65 ≤ n ∧ n ≤ 70 then some (n - 55)
  else none

/-- The value of a non-empty run of digits in base `b`, if all of them are digits of that
base. -/
def radixVal? (b : ℕ) (ds : List Char) : Option ℕ :=
  if ds.isEmpty then none
  else ds.foldl (fun acc c =>
    match acc, radixDigit? c with
    | some v, some d => if d < b then some (b * v + d) else none
    | _, _ => none) (some 0)

/-- A non-decimal integer literal: `0x`, `0o` or `0b` (either case) and digits of that
base. -/
def radixLiteral? (cs : List Char) : Option ℕ :=
  match cs with
  | '0' :: x :: ds =>
    if x == 'x' || x == 'X' then radixVal? 16 ds
    else if x == 'o' || x == 'O' then radixVal? 8 ds
    else if x == 'b' || x == 'B' then radixVal? 2 ds
    else none
  | _ => none

/-- ToNumber on an arbitrary string: white space is stripped from both ends; then the text is
`Infinity` with an optional sign, a non-decimal integer literal, or what `stringToNumber`
reads (the empty text as `0`, a signed decimal literal as its value or as an infinity when
it overflows, anything else as `NaN`). -/
def toNumberString (s : String) : JSNum :=
  let t := ((s.data.dropWhile isStrWhiteSpace).reverse.dropWhile isStrWhiteSpace).reverse
  if t = "Infinity".data ∨ t = "+Infinity".data then .posInf
  else if t = "-Infinity".data then .negInf
  else
    match radixLiteral? t with
    | some n => numberOfLiteral n
    | none => stringToNumber t

/-- The exponent part that `parseFloat` reads after a mantissa: `e` or `E`, an optional sign
and at least one digit; `0` when the text does not go on that way. -/
def floatExponent (cs : List Char) : ℤ :=
  match cs with
  | e :: r =>
    if e == 'e' || e == 'E' then
      match r with
      | '-' :: ds => if (ds.takeWhile Char.isDigit).isEmpty then 0
                     else -(digitsVal (ds.takeWhile Char.isDigit) : ℤ)
      | '+' :: ds => (digitsVal (ds.takeWhile Char.isDigit) : ℤ)
      | ds => (digitsVal (ds.takeWhile Char.isDigit) : ℤ)
    else 0
  | [] => 0

/-- The unsigned part of what `parseFloat` reads: the longest beginning of the text that is
`Infinity` or a decimal literal, `NaN` when there is none. -/
def floatUnsigned (r : List Char) : JSNum :=
  if r.take 8 = "Infinity".data then .posInf
  else
    let ip := r.takeWhile Char.isDigit
    match r.dropWhile Char.isDigit with
    | '.' :: r1 =>
      let fp := r1.takeWhile Char.isDigit
      if ip.isEmpty && fp.isEmpty then .nan
      else numberOfLiteral ((digitsVal ip + digitsVal fp / 10 ^ fp.length) *
        (10 : ℚ) ^ floatExponent (r1.dropWhile Char.isDigit))
    | r1 =>
      if ip.isEmpty then .nan
      else numberOfLiteral (digitsVal ip * (10 : ℚ) ^ floatExponent r1)

/-- The global `parseFloat` on a string: leading white space is stripped, an optional sign is
read, then the longest beginning that is a decimal literal. -/
def parseFloatString (s : String) : JSNum :=
  match s.data.dropWhile isStrWhiteSpace with
  | '-' :: r =>
    (floatUnsigned r).neg
  | '+' :: r => floatUnsigned r
  | r => floatUnsigned r

/-- A value handed to the `angle` filter: `undefined`, a number, a string or a `Dms`
object. -/
inductive FilterValue where
  | undefined
  | num (n : JSNum)
  | str (s : String)
  | dms (a : Dms)

/-- Source lines 105-107, `isNumeric(n)`, on a value of the filter. A string goes through
`parseFloat` and ToNumber on strings. A `Dms` object is first converted to a string by its own
`toString()`, which may throw. -/
def isNumericValue (fracStr : ℚ → String) (v : FilterValue) : Except String Bool :=
  match v with
  | .undefined => .ok (isNumeric .undefined)
  | .num n => .ok (isNumeric (.num n))
  | .str s =>
    .ok (!isNaN (parseFloatString s) && isFinite (.num (toNumberString s)))
  | .dms a =>
    match a.toString fracStr 0 with
    | .error e => .error e
    | .ok s => .ok (!isNaN (parseFloatString s) && isFinite (.num (toNumberString s)))

/-- The call `Dms.parse(value)` of the filter, where `value` need not be a string: a falsy
value returns `undefined` at the first test, and `str.split` of a truthy value that is not a
string is a TypeError, thrown before the `try` block. -/
def parseValue (v : FilterValue) : Except String (Option Dms) :=
  match v with
  | .undefined => Dms.parse none
  | .str s => Dms.parse (some s)
  | .num .nan => .ok none
  | .num (.fin q) => if q = 0 then .ok none else .error "TypeError: str.split is not a function"
  | .num _ => .error "TypeError: str.split is not a function"
  | .dms _ => .error "TypeError: str.split is not a function"

/-- Source lines 115-130, the function of the `angle` filter. The result `undefined` is what
falls off the end when `Dms.parse` finds nothing. -/
def angleFilter (fracStr : ℚ → String) (value : FilterValue) : Except String FilterValue :=
  match isNumericValue fracStr value with
  | .error e => .error e
  | .ok true => .ok value
  | .ok false =>
    match value with
    | .dms a => .ok (.num (.fin a.toDecimal))
    | _ =>
      match parseValue value with
      | .error e => .error e
      | .ok (some dms) => .ok (.num (.fin dms.toDecimal))
      | .ok none => .ok .undefined

/-! ## Properties of the constructor and of `toDecimal` -/

theorem isNumeric_fin (q : ℚ) : isNumeric (.num (.fin q)) = true := rfl

theorem new_components_eq (d m s g : ℚ) :
    Dms.new (componentArgs d m s g) =
      if 0 ≤ d then
        if 0 ≤ m ∧ m < 60 then
          if 0 ≤ s ∧ s < 60 then
            if g = 1 ∨ g = -1 then .ok { degs := d, mins := m, secs := s, sign := g }
            else .error "Sign argument to Dms() must be 1 or -1."
          else .error "Seconds argument to Dms() must be a number gte 0 and lt 60."
        else .error "Minutes argument to Dms() must be a number gte 0 and lt 60."
      else .error "Degrees argument to Dms() must be a non-negative number." := by
  simp only [Dms.new, componentArgs, List.getD_cons_zero, List.getD_cons_succ, toNumber,
    isNumeric_fin, JSNum.ge, JSNum.lt, JSNum.eqNum, Bool.true_and, List.length_cons,
    List.length_nil]
  rw [← Bool.decide_and, ← Bool.decide_and, ← Bool.decide_or]
  by_cases hd : 0 ≤ d
  · rw [decide_eq_true hd, if_pos hd]
    by_cases hm : 0 ≤ m ∧ m < 60
    · rw [decide_eq_true hm, if_pos hm]
      by_cases hs : 0 ≤ s ∧ s < 60
      · rw [decide_eq_true hs, if_pos hs]
        by_cases hg : g = 1 ∨ g = -1
        · rw [decide_eq_true hg, if_pos hg]; rfl
        · rw [decide_eq_false hg, if_neg hg]; rfl
      · rw [decide_eq_false hs, if_neg hs]; rfl
    · rw [decide_eq_false hm, if_neg hm]; rfl
  · rw [decide_eq_false hd, if_neg hd]; rfl

theorem new_decimal_eq (v : ℚ) :
    Dms.new (decimalArgs v) =
      .ok { degs := (⌊|v|⌋ : ℤ),
            mins := (⌊(|v| - (⌊|v|⌋ : ℤ)) * 60⌋ : ℤ),
            secs := (|v| - (⌊|v|⌋ : ℤ) - ((⌊(|v| - (⌊|v|⌋ : ℤ)) * 60⌋ : ℤ) : ℚ) / 60) * 60 * 60,
            sign := if v < 0 then -1 else 1 } := rfl

theorem valid_of_new_components {d m s g : ℚ} {a : Dms}
    (h : Dms.new (componentArgs d m s g) = .ok a) :
    (0 ≤ d ∧ (0 ≤ m ∧ m < 60) ∧ (0 ≤ s ∧ s < 60) ∧ (g = 1 ∨ g = -1)) ∧
      a = { degs := d, mins := m, secs := s, sign := g } := by
  rw [new_components_eq] at h
  split_ifs at h with hd hm hs hg
  exact ⟨⟨hd, hm, hs, hg⟩, (Except.ok.inj h).symm⟩

theorem new_components_of_valid {d m s g : ℚ}
    (h : 0 ≤ d ∧ (0 ≤ m ∧ m < 60) ∧ (0 ≤ s ∧ s < 60) ∧ (g = 1 ∨ g = -1)) :
    Dms.new (componentArgs d m s g) = .ok { degs := d, mins := m, secs := s, sign := g } := by
  rw [new_components_eq, if_pos h.1, if_pos h.2.1, if_pos h.2.2.1, if_pos h.2.2.2]

theorem new_components_error {d m s g : ℚ}
    (h : ¬(0 ≤ d ∧ (0 ≤ m ∧ m < 60) ∧ (0 ≤ s ∧ s < 60) ∧ (g = 1 ∨ g = -1))) :
    ∃ e, Dms.new (componentArgs d m s g) = .error e := by
  rw [new_components_eq]
  split_ifs with hd hm hs hg
  · exact absurd ⟨hd, hm, hs, hg⟩ h
  all_goals exact ⟨_, rfl⟩

/-- The fractional part of the magnitude, in sixtieths: the facts behind the decimal
constructor. -/
theorem decimal_parts (v : ℚ) :
    (0 : ℚ) ≤ (⌊|v|⌋ : ℤ) ∧
    (0 : ℚ) ≤ (⌊(|v| - (⌊|v|⌋ : ℤ)) * 60⌋ : ℤ) ∧
    ((⌊(|v| - (⌊|v|⌋ : ℤ)) * 60⌋ : ℤ) : ℚ) < 60 ∧
    0 ≤ (|v| - (⌊|v|⌋ : ℤ) - ((⌊(|v| - (⌊|v|⌋ : ℤ)) * 60⌋ : ℤ) : ℚ) / 60) * 60 * 60 ∧
    (|v| - (⌊|v|⌋ : ℤ) - ((⌊(|v| - (⌊|v|⌋ : ℤ)) * 60⌋ : ℤ) : ℚ) / 60) * 60 * 60 < 60 := by
  have h0 : (0 : ℚ) ≤ |v| := abs_nonneg v
  have hfl : ((⌊|v|⌋ : ℤ) : ℚ) ≤ |v| := Int.floor_le _
  have hfu : |v| < (⌊|v|⌋ : ℤ) + 1 := Int.lt_floor_add_one _
  have hml : ((⌊(|v| - (⌊|v|⌋ : ℤ)) * 60⌋ : ℤ) : ℚ) ≤ (|v| - (⌊|v|⌋ : ℤ)) * 60 :=
    Int.floor_le _
  have hmu : (|v| - (⌊|v|⌋ : ℤ)) * 60 < (⌊(|v| - (⌊|v|⌋ : ℤ)) * 60⌋ : ℤ) + 1 :=
    Int.lt_floor_add_one _
  have hd0 : (0 : ℤ) ≤ ⌊|v|⌋ := Int.floor_nonneg.mpr h0
  have hm0 : (0 : ℤ) ≤ ⌊(|v| - (⌊|v|⌋ : ℤ)) * 60⌋ := Int.floor_nonneg.mpr (by linarith)
  have hm60 : ⌊(|v| - (⌊|v|⌋ : ℤ)) * 60⌋ < 60 := Int.floor_lt.mpr (by push_cast; linarith)
  refine ⟨by exact_mod_cast hd0, by exact_mod_cast hm0, by exact_mod_cast hm60, ?_, ?_⟩
  · linarith
  · linarith

/-- C1. The component constructor on four finite numbers succeeds exactly when
`degs >= 0`, `0 <= mins < 60`, `0 <= secs < 60` and `sign` is `1` or `-1`; the object it then
builds holds the four inputs unchanged; in every other case it throws. In particular
`mins = 60`, `secs = 60`, `sign = 0` and `sign = 2` are each rejected whatever the other
arguments are. -/
theorem component_constructor_strict (d m s g : ℚ) :
    ((∃ a, Dms.new (componentArgs d m s g) = .ok a) ↔
      (0 ≤ d ∧ (0 ≤ m ∧ m < 60) ∧ (0 ≤ s ∧ s < 60) ∧ (g = 1 ∨ g = -1))) ∧
    (∀ a, Dms.new (componentArgs d m s g) = .ok a →
      a.degs = d ∧ a.mins = m ∧ a.secs = s ∧ a.sign = g) ∧
    (¬(0 ≤ d ∧ (0 ≤ m ∧ m < 60) ∧ (0 ≤ s ∧ s < 60) ∧ (g = 1 ∨ g = -1)) →
      ∃ e, Dms.new (componentArgs d m s g) = .error e) ∧
    (∃ e, Dms.new (componentArgs d 60 s g) = .error e) ∧
    (∃ e, Dms.new (componentArgs d m 60 g) = .error e) ∧
    (∃ e, Dms.new (componentArgs d m s 0) = .error e) ∧
    (∃ e, Dms.new (componentArgs d m s 2) = .error e) := by
  refine ⟨⟨?_, ?_⟩, ?_, new_components_error, ?_, ?_, ?_, ?_⟩
  · rintro ⟨a, ha⟩
    exact (valid_of_new_components ha).1
  · intro h
    exact ⟨_, new_components_of_valid h⟩
  · intro a ha
    rw [(valid_of_new_components ha).2]
    exact ⟨rfl, rfl, rfl, rfl⟩
  · exact new_components_error (fun h => absurd h.2.1.2 (by norm_num))
  · exact new_components_error (fun h => absurd h.2.2.1.2 (by norm_num))
  · exact new_components_error (fun h => absurd h.2.2.2 (by norm_num))
  · exact new_components_error (fun h => absurd h.2.2.2 (by norm_num))

/-- Witness for C1: `new Dms(45, 30, 15, 1)` is built with those four values, and
`new Dms(45, 60, 15, 1)` throws. -/
theorem component_constructor_strict_witness :
    (∃ a, Dms.new (componentArgs 45 30 15 1) = .ok a ∧
      a.degs = 45 ∧ a.mins = 30 ∧ a.secs = 15 ∧ a.sign = 1) ∧
    (∃ e, Dms.new (componentArgs 45 60 15 1) = .error e) := by
  obtain ⟨a, ha⟩ := (component_constructor_strict 45 30 15 1).1.mpr (by norm_num)
  exact ⟨⟨a, ha, (component_constructor_strict 45 30 15 1).2.1 a ha⟩,
    (component_constructor_strict 45 60 15 1).2.2.1 (by norm_num)⟩

/-- C2. Under exact arithmetic the decimal round trip loses nothing: the decimal constructor
succeeds on every finite `v` and `toDecimal` of its result is `v`; hence for every angle `a`
built by the component constructor, the angle re-derived from `a.toDecimal()` has the same
`toDecimal()` as `a`. -/
theorem decimal_round_trip :
    (∀ v : ℚ, ∃ a, Dms.new (decimalArgs v) = .ok a ∧ a.toDecimal = v) ∧
    (∀ (d m s g : ℚ) (a : Dms), Dms.new (componentArgs d m s g) = .ok a →
      ∃ b, Dms.new (decimalArgs a.toDecimal) = .ok b ∧ b.toDecimal = a.toDecimal) := by
  have key : ∀ v : ℚ, ∃ a, Dms.new (decimalArgs v) = .ok a ∧ a.toDecimal = v := by
    intro v
    refine ⟨_, new_decimal_eq v, ?_⟩
    simp only [Dms.toDecimal]
    split_ifs with hv
    · rw [abs_of_neg hv]; ring
    · rw [abs_of_nonneg (not_lt.mp hv)]; ring
  exact ⟨key, fun _ _ _ _ a _ => key a.toDecimal⟩

/-- Witness for C2: the round trip through `new Dms(12, 30, 36, -1)`, whose decimal value is
`-12.51`. -/
theorem decimal_round_trip_witness :
    ∃ a b, Dms.new (componentArgs 12 30 36 (-1)) = .ok a ∧
      Dms.new (decimalArgs a.toDecimal) = .ok b ∧ b.toDecimal = a.toDecimal := by
  obtain ⟨b, hb⟩ := decimal_round_trip.2 12 30 36 (-1) ⟨12, 30, 36, -1⟩
    (new_components_of_valid (by norm_num))
  exact ⟨_, b, new_components_of_valid (by norm_num), hb⟩

/-- C3. The decimal constructor on a finite `v`, under exact arithmetic: `sign` is `-1` when
`v < 0` and `1` otherwise, `degs = floor(|v|) >= 0`, `mins = floor((|v| - degs) * 60)` is an
integer with `0 <= mins < 60`, and `secs = (|v| - degs - mins/60) * 3600` with
`0 <= secs < 60`: the derived angle satisfies the data-model constraints. -/
theorem decimal_constructor_invariants (v : ℚ) :
    ∃ a, Dms.new (decimalArgs v) = .ok a ∧
      a.sign = (if v < 0 then -1 else 1) ∧
      a.degs = (⌊|v|⌋ : ℤ) ∧ 0 ≤ a.degs ∧
      a.mins = (⌊(|v| - a.degs) * 60⌋ : ℤ) ∧ 0 ≤ a.mins ∧ a.mins < 60 ∧
      a.secs = (|v| - a.degs - a.mins / 60) * 3600 ∧ 0 ≤ a.secs ∧ a.secs < 60 ∧
      a.Valid := by
  obtain ⟨h1, h2, h3, h4, h5⟩ := decimal_parts v
  refine ⟨_, new_decimal_eq v, rfl, rfl, h1, rfl, h2, h3, ?_, h4, h5, ?_⟩
  · simp only; ring
  · refine ⟨h1, ⟨h2, h3⟩, ⟨h4, h5⟩, ?_⟩
    simp only
    split_ifs
    · exact Or.inr rfl
    · exact Or.inl rfl

/-- C9. For every angle that satisfies the data-model constraints, `toDecimal()` is
`sign * (degs + mins/60 + secs/3600)`; its absolute value is `degs + mins/60 + secs/3600`;
and it is `<= 0` exactly when `sign = -1` or that magnitude is zero. -/
theorem toDecimal_value (a : Dms) (h : a.Valid) :
    a.toDecimal = a.sign * (a.degs + a.mins / 60 + a.secs / 3600) ∧
    |a.toDecimal| = a.degs + a.mins / 60 + a.secs / 3600 ∧
    (a.toDecimal ≤ 0 ↔ (a.sign = -1 ∨ a.degs + a.mins / 60 + a.secs / 3600 = 0)) := by
  obtain ⟨hd, ⟨hm, _⟩, ⟨hs, _⟩, hg⟩ := h
  have hmag : 0 ≤ a.degs + a.mins / 60 + a.secs / 3600 := by positivity
  refine ⟨rfl, ?_, ?_⟩
  · rcases hg with hg | hg
    · simp only [Dms.toDecimal, hg, one_mul]; exact abs_of_nonneg hmag
    · simp only [Dms.toDecimal, hg, neg_mul, one_mul, abs_neg]; exact abs_of_nonneg hmag
  · rcases hg with hg | hg
    · simp only [Dms.toDecimal, hg, one_mul]
      constructor
      · intro hle; exact Or.inr (le_antisymm hle hmag)
      · rintro (h1 | h1)
        · norm_num at h1
        · exact h1.le
    · simp only [Dms.toDecimal, hg, neg_mul, one_mul]
      constructor
      · intro _; exact Or.inl trivial
      · intro _; linarith

/-- Witness for C9: the angle `12° 30' 36"` with sign `-1` has decimal value `-12.51`. -/
theorem toDecimal_value_witness :
    (⟨12, 30, 36, -1⟩ : Dms).toDecimal = -1 * (12 + 30 / 60 + 36 / 3600) ∧
    |(⟨12, 30, 36, -1⟩ : Dms).toDecimal| = 12 + 30 / 60 + 36 / 3600 ∧
    ((⟨12, 30, 36, -1⟩ : Dms).toDecimal ≤ 0 ↔
      ((-1 : ℚ) = -1 ∨ (12 : ℚ) + 30 / 60 + 36 / 3600 = 0)) :=
  toDecimal_value ⟨12, 30, 36, -1⟩ (by unfold Dms.Valid; norm_num)

/-! ## Properties of splitting and of reading numerals -/

theorem splitOnChar_length (d : Char) (cs : List Char) :
    (splitOnChar d cs).length = cs.count d + 1 := by
  induction cs with
  | nil => rfl
  | cons c cs ih =>
    rw [splitOnChar]
    cases hsp : splitOnChar d cs with
    | nil => rw [hsp] at ih; simp at ih
    | cons t ts =>
      rw [hsp] at ih
      by_cases hc : c = d
      · subst hc; simp at ih ⊢; omega
      · have : (c == d) = false := by simpa using hc
        simp [this, List.count_cons, hc] at ih ⊢; omega

theorem splitSeparators_ne_nil (cs : List Char) : splitSeparators cs ≠ [] := by
  induction cs with
  | nil => simp [splitSeparators]
  | cons c cs ih =>
    rw [splitSeparators]
    cases hsp : splitSeparators cs with
    | nil => exact absurd hsp ih
    | cons t ts =>
      simp only
      split_ifs
      · cases cs with
        | nil => simp
        | cons c2 cs2 => simp only; split_ifs <;> simp
      · simp

/-- Separator run followed by text that does not begin with a separator. -/
theorem splitSeparators_run (p rest : List Char) (hp : p ≠ []) (hps : ∀ c ∈ p, isSep c = true)
    (hrest : ∀ c ∈ rest.head?, isSep c = false) :
    splitSeparators (p ++ rest) = [] :: splitSeparators rest := by
  induction p with
  | nil => exact absurd rfl hp
  | cons c p ih =>
    have hc : isSep c = true := hps c (List.mem_cons_self _ _)
    rw [List.cons_append, splitSeparators]
    cases hsp : splitSeparators (p ++ rest) with
    | nil => exact absurd hsp (splitSeparators_ne_nil _)
    | cons t ts =>
      simp only [hc, if_true]
      cases p with
      | nil =>
        simp only [List.nil_append] at hsp ⊢
        cases rest with
        | nil => simp only; rw [hsp]
        | cons r rs =>
          have hr : isSep r = false := hrest r (by simp)
          simp only [hr]; rw [hsp]; simp
      | cons c2 p2 =>
        have hc2 : isSep c2 = true := hps c2 (by simp)
        have := ih (by simp) (fun x hx => hps x (List.mem_cons_of_mem _ hx))
        rw [this] at hsp
        simp only [List.cons_append, hc2, if_true]
        rw [← hsp]

theorem splitSeparators_token (tok rest : List Char) (ht : ∀ c ∈ tok, isSep c = false) :
    splitSeparators (tok ++ rest) =
      (tok ++ (splitSeparators rest).headD []) :: (splitSeparators rest).tail := by
  induction tok with
  | nil =>
    cases h : splitSeparators rest with
    | nil => exact absurd h (splitSeparators_ne_nil _)
    | cons t ts => simp [h]
  | cons c tok ih =>
    have hc : isSep c = false := ht c (List.mem_cons_self _ _)
    rw [List.cons_append, splitSeparators, ih (fun x hx => ht x (List.mem_cons_of_mem _ hx))]
    simp [hc]
theorem isNumeral_iff (ds : List Char) :
    isNumeral ds = true ↔ ds ≠ [] ∧ ∀ c ∈ ds, c.isDigit = true := by
  cases ds <;> simp [isNumeral]

theorem span_all {p : Char → Bool} (ds : List Char) (h : ∀ c ∈ ds, p c = true) :
    ds.span p = (ds, []) := by
  rw [List.span_eq_take_drop, List.takeWhile_eq_self_iff.mpr h, List.dropWhile_eq_nil_iff.mpr h]

theorem mantissa_numeral (ds : List Char) (h : isNumeral ds = true) :
    mantissa? ds = some (digitsVal ds : ℚ) := by
  obtain ⟨hne, hd⟩ := (isNumeral_iff ds).mp h
  unfold mantissa?
  rw [span_all ds hd]
  cases ds with
  | nil => exact absurd rfl hne
  | cons c cs => rfl

theorem unsignedDecimal_numeral (ds : List Char) (h : isNumeral ds = true) :
    unsignedDecimal? ds = some (digitsVal ds : ℚ) := by
  obtain ⟨hne, hd⟩ := (isNumeral_iff ds).mp h
  unfold unsignedDecimal?
  rw [span_all ds]
  · exact mantissa_numeral ds h
  · intro c hc
    have := hd c hc
    simp only [Bool.not_eq_true', Bool.or_eq_false_iff, beq_eq_false_iff_ne, ne_eq]
    constructor <;> (rintro rfl; exact absurd this (by decide))

theorem overflowBound_gt : (2 : ℚ) ^ 1023 < overflowBound := by
  unfold overflowBound; norm_num

theorem numberOfLiteral_of_lt {q : ℚ} (h : q < overflowBound) : numberOfLiteral q = .fin q := by
  unfold numberOfLiteral
  rw [if_neg (not_le.mpr h)]

theorem lt_overflowBound_of_le {q : ℚ} (h : q ≤ 1000000) : q < overflowBound :=
  lt_of_le_of_lt h (lt_trans (by norm_num) overflowBound_gt)

theorem numberOfLiteral_of_le {q : ℚ} (h : overflowBound ≤ q) :
    numberOfLiteral q = .posInf := by
  unfold numberOfLiteral
  rw [if_pos h]

theorem natCast_lt_overflowBound {n : ℕ} (h : n ≤ 2 ^ 1023) : (n : ℚ) < overflowBound := by
  have h1 : (n : ℚ) ≤ ((2 ^ 1023 : ℕ) : ℚ) := by exact_mod_cast h
  have h2 : ((2 ^ 1023 : ℕ) : ℚ) = (2 : ℚ) ^ 1023 := by rw [Nat.cast_pow, Nat.cast_ofNat]
  rw [h2] at h1
  exact lt_of_le_of_lt h1 overflowBound_gt

theorem numberOfLiteral_natCast {n : ℕ} (h : n ≤ 2 ^ 1023) :
    numberOfLiteral (n : ℚ) = .fin (n : ℚ) :=
  numberOfLiteral_of_lt (natCast_lt_overflowBound h)

/-- A numeral reads as the number of its value, or as `Infinity` when that overflows. -/
theorem stringToNumber_numeral_literal (ds : List Char) (h : isNumeral ds = true) :
    stringToNumber ds = numberOfLiteral (digitsVal ds : ℚ) := by
  obtain ⟨hne, hd⟩ := (isNumeral_iff ds).mp h
  cases ds with
  | nil => exact absurd rfl hne
  | cons c cs =>
    have hc := hd c (List.mem_cons_self _ _)
    have h1 : c ≠ '-' := by rintro rfl; exact absurd hc (by decide)
    have h2 : c ≠ '+' := by rintro rfl; exact absurd hc (by decide)
    unfold stringToNumber
    split
    · rename_i heq; exact absurd heq (by simp)
    · rename_i heq; exact absurd (List.cons.inj heq).1 h1
    · rename_i heq; exact absurd (List.cons.inj heq).1 h2
    · rw [unsignedDecimal_numeral _ h]

theorem stringToNumber_numeral (ds : List Char) (h : isNumeral ds = true)
    (hb : digitsVal ds ≤ 2 ^ 1023) :
    stringToNumber ds = .fin (digitsVal ds : ℚ) := by
  rw [stringToNumber_numeral_literal ds h, numberOfLiteral_natCast hb]

theorem stringToNumber_neg_numeral_literal (ds : List Char) (h : isNumeral ds = true) :
    stringToNumber ('-' :: ds) = (numberOfLiteral (digitsVal ds : ℚ)).neg := by
  show (match unsignedDecimal? ds with
    | some q => (numberOfLiteral q).neg
    | none => JSNum.nan) = _
  rw [unsignedDecimal_numeral _ h]

theorem stringToNumber_neg_numeral (ds : List Char) (h : isNumeral ds = true)
    (hb : digitsVal ds ≤ 2 ^ 1023) :
    stringToNumber ('-' :: ds) = .fin (-(digitsVal ds : ℚ)) := by
  rw [stringToNumber_neg_numeral_literal ds h, numberOfLiteral_natCast hb]
  rfl

theorem digitsVal_foldl (ds : List Char) (k : ℕ) :
    ds.foldl (fun acc c => 10 * acc + (c.toNat - 48)) k = k * 10 ^ ds.length + digitsVal ds := by
  induction ds generalizing k with
  | nil => simp [digitsVal]
  | cons c cs ih =>
    simp only [digitsVal, List.foldl_cons, List.length_cons]
    rw [ih, ih (10 * 0 + (c.toNat - 48))]
    ring

theorem digitsVal_cons (c : Char) (cs : List Char) :
    digitsVal (c :: cs) = (c.toNat - 48) * 10 ^ cs.length + digitsVal cs := by
  simp only [digitsVal, List.foldl_cons]
  rw [digitsVal_foldl]
  simp [digitsVal]

theorem digitChar_spec (k : ℕ) (hk : k < 10) :
    (Nat.digitChar k).isDigit = true ∧ (Nat.digitChar k).toNat - 48 = k := by
  interval_cases k <;> decide

theorem toDigitsCore_spec (fuel : ℕ) : ∀ (n : ℕ) (acc : List Char), n < fuel →
    (∀ c ∈ acc, c.isDigit = true) →
    (∀ c ∈ Nat.toDigitsCore 10 fuel n acc, c.isDigit = true) ∧
    Nat.toDigitsCore 10 fuel n acc ≠ [] ∧
    digitsVal (Nat.toDigitsCore 10 fuel n acc) = n * 10 ^ acc.length + digitsVal acc := by
  induction fuel with
  | zero => intro n acc h; omega
  | succ fuel ih =>
    intro n acc hn hacc
    obtain ⟨hd1, hd2⟩ := digitChar_spec (n % 10) (Nat.mod_lt _ (by norm_num))
    have hacc2 : ∀ c ∈ Nat.digitChar (n % 10) :: acc, c.isDigit = true := by
      intro c hc
      rcases List.mem_cons.mp hc with rfl | hc
      · exact hd1
      · exact hacc c hc
    simp only [Nat.toDigitsCore]
    by_cases h0 : n / 10 = 0
    · rw [if_pos h0]
      refine ⟨hacc2, by simp, ?_⟩
      rw [digitsVal_cons, hd2]
      have : n % 10 = n := Nat.mod_eq_of_lt (by omega)
      rw [this]
    · rw [if_neg h0]
      obtain ⟨h1, h2, h3⟩ := ih (n / 10) (Nat.digitChar (n % 10) :: acc) (by omega) hacc2
      refine ⟨h1, h2, ?_⟩
      rw [h3, digitsVal_cons, hd2, List.length_cons, pow_succ]
      have hn10 : n = 10 * (n / 10) + n % 10 := (Nat.div_add_mod n 10).symm
      generalize n / 10 = q at hn10 ⊢
      generalize n % 10 = r at hn10 ⊢
      subst hn10
      ring

theorem toDigits_numeral (n : ℕ) :
    isNumeral (Nat.toDigits 10 n) = true ∧ digitsVal (Nat.toDigits 10 n) = n := by
  obtain ⟨h1, h2, h3⟩ := toDigitsCore_spec (n + 1) n [] (by omega) (by simp)
  refine ⟨?_, by simpa [digitsVal] using h3⟩
  cases h : Nat.toDigits 10 n with
  | nil => exact absurd h h2
  | cons c cs =>
    have : ∀ x ∈ c :: cs, x.isDigit = true := by rw [← h]; exact h1
    simp only [isNumeral, List.isEmpty_cons, Bool.not_false, Bool.true_and, List.all_eq_true]
    exact this
/-! ## Properties of `Dms.parse` -/

theorem new_four_fin {n0 n1 n2 n3 : JSNum} {a : Dms}
    (h : Dms.new [.num n0, .num n1, .num n2, .num n3] = .ok a) :
    ∃ d m s g, n0 = .fin d ∧ n1 = .fin m ∧ n2 = .fin s ∧ n3 = .fin g := by
  simp only [Dms.new, List.getD_cons_zero, List.getD_cons_succ, toNumber, List.length_cons,
    List.length_nil] at h
  rw [if_neg (by decide)] at h
  split at h
  · split at h
    · split at h
      · split at h
        · exact ⟨_, _, _, _, rfl, rfl, rfl, rfl⟩
        · exact absurd h (by simp)
      · exact absurd h (by simp)
    · exact absurd h (by simp)
  · exact absurd h (by simp)

theorem new_four_iff (n0 n1 n2 n3 : JSNum) (a : Dms) :
    Dms.new [.num n0, .num n1, .num n2, .num n3] = .ok a ↔
      (n0 = .fin a.degs ∧ n1 = .fin a.mins ∧ n2 = .fin a.secs ∧ n3 = .fin a.sign) ∧ a.Valid := by
  constructor
  · intro h
    obtain ⟨d, m, s, g, rfl, rfl, rfl, rfl⟩ := new_four_fin h
    obtain ⟨hv, rfl⟩ := valid_of_new_components h
    exact ⟨⟨rfl, rfl, rfl, rfl⟩, hv⟩
  · rintro ⟨⟨rfl, rfl, rfl, rfl⟩, hv⟩
    exact new_components_of_valid hv

theorem parse_total (str : Option String) : ∃ r, Dms.parse str = .ok r := by
  unfold Dms.parse
  cases str with
  | none => exact ⟨_, rfl⟩
  | some s =>
    simp only
    split_ifs <;> first | exact ⟨_, rfl⟩ | (split <;> exact ⟨_, rfl⟩)

theorem parse_eq_some_iff (str : String) (a : Dms) :
    Dms.parse (some str) = .ok (some a) ↔
      str.data ≠ [] ∧ str.data.count '-' ≤ 1 ∧
      (parseF ((splitSeparators str.data).get? 0) = .fin a.degs ∧
        parseF ((splitSeparators str.data).get? 1) = .fin a.mins ∧
        parseF ((splitSeparators str.data).get? 2) = .fin a.secs ∧
        a.sign = (if str.data.count '-' ≠ 0 then -1 else 1)) ∧
      a.Valid := by
  unfold Dms.parse
  simp only [splitOnChar_length, Nat.add_sub_cancel, List.isEmpty_iff]
  by_cases he : str.data = []
  · simp [he]
  · rw [if_neg he]
    by_cases hn : str.data.count '-' > 1
    · rw [if_pos hn]
      constructor
      · intro h; exact absurd (Except.ok.inj h) (by simp)
      · rintro ⟨_, h, _⟩; omega
    · rw [if_neg hn]
      have hn2 : str.data.count '-' ≤ 1 := by omega
      constructor
      · intro h
        split at h
        · rename_i b hb
          have hab : b = a := by simpa using h
          subst hab
          obtain ⟨⟨h0, h1, h2, h3⟩, hv⟩ := (new_four_iff _ _ _ _ _).mp hb
          exact ⟨he, hn2, ⟨h0, h1, h2, (JSNum.fin.inj h3).symm⟩, hv⟩
        · simp at h
      · rintro ⟨_, _, ⟨h0, h1, h2, h3⟩, hv⟩
        rw [(new_four_iff _ _ _ _ a).mpr ⟨⟨h0, h1, h2, by rw [h3]⟩, hv⟩]

theorem isSep_of_isDigit {c : Char} (h : c.isDigit = true) : isSep c = false := by
  simp [isSep, h]

theorem ne_minus_of_isDigit {c : Char} (h : c.isDigit = true) : c ≠ '-' := by
  rintro rfl; exact absurd h (by decide)

theorem ne_minus_of_isSep {c : Char} (h : isSep c = true) : c ≠ '-' := by
  rintro rfl; exact absurd h (by decide)

theorem isSepRun_iff (p : List Char) :
    isSepRun p = true ↔ p ≠ [] ∧ ∀ c ∈ p, isSep c = true := by
  cases p <;> simp [isSepRun]

/-- A piece, a separator run, then text that is empty or starts with a character of a
piece. -/
theorem splitSeparators_token_run (tok p rest : List Char)
    (ht : ∀ c ∈ tok, isSep c = false) (hp : isSepRun p = true)
    (hrest : ∀ c ∈ rest.head?, isSep c = false) :
    splitSeparators (tok ++ (p ++ rest)) = tok :: splitSeparators rest := by
  obtain ⟨hp1, hp2⟩ := (isSepRun_iff p).mp hp
  rw [splitSeparators_token tok _ ht, splitSeparators_run p rest hp1 hp2 hrest]
  simp

/-- A piece followed by separator characters only, or by nothing. -/
theorem splitSeparators_token_trail (tok t : List Char)
    (ht : ∀ c ∈ tok, isSep c = false) (htr : ∀ c ∈ t, isSep c = true) :
    ∃ tl, splitSeparators (tok ++ t) = tok :: tl := by
  cases t with
  | nil =>
    refine ⟨[], ?_⟩
    rw [splitSeparators_token tok _ ht]
    simp [splitSeparators]
  | cons c cs =>
    refine ⟨[[]], ?_⟩
    have := splitSeparators_token_run tok (c :: cs) [] ht
      ((isSepRun_iff _).mpr ⟨by simp, htr⟩) (by simp)
    simpa [splitSeparators] using this


theorem parseF_numeral (D : List Char) (hD : isNumeral D = true)
    (hb : digitsVal D ≤ 2 ^ 1023) :
    parseF (some D) = .fin (digitsVal D : ℚ) := by
  simp only [parseF, stringToNumber_numeral D hD hb, JSNum.abs]
  rw [abs_of_nonneg (Nat.cast_nonneg _)]

theorem parseF_neg_numeral (D : List Char) (hD : isNumeral D = true)
    (hb : digitsVal D ≤ 2 ^ 1023) :
    parseF (some ('-' :: D)) = .fin (digitsVal D : ℚ) := by
  simp only [parseF, stringToNumber_neg_numeral D hD hb, JSNum.abs]
  rw [abs_neg, abs_of_nonneg (Nat.cast_nonneg _)]

theorem parseF_signed_numeral (sg D : List Char) (hsg : sg = [] ∨ sg = ['-'])
    (hD : isNumeral D = true) (hb : digitsVal D ≤ 2 ^ 1023) :
    parseF (some (sg ++ D)) = .fin (digitsVal D : ℚ) := by
  rcases hsg with rfl | rfl
  · exact parseF_numeral D hD hb
  · exact parseF_neg_numeral D hD hb

theorem small_le_bound {n : ℕ} (h : n < 60) : n ≤ 2 ^ 1023 :=
  le_trans (le_of_lt h) (by norm_num)

theorem le_bound_of_small {n : ℕ} (h : n ≤ 1000000) : n ≤ 2 ^ 1023 :=
  le_trans h (by norm_num)

/-- Up to `2^53` every natural number is a binary64 value, far below the overflow. -/
theorem exact_bound {n : ℕ} (h : n ≤ 2 ^ 53) : n ≤ 2 ^ 1023 :=
  le_trans h (by norm_num)

theorem isSep_signed_numeral (sg D : List Char) (hsg : sg = [] ∨ sg = ['-'])
    (hD : isNumeral D = true) : ∀ c ∈ sg ++ D, isSep c = false := by
  obtain ⟨_, hd⟩ := (isNumeral_iff D).mp hD
  intro c hc
  rcases List.mem_append.mp hc with h | h
  · rcases hsg with rfl | rfl
    · simp at h
    · rw [List.mem_singleton.mp h]; decide
  · exact isSep_of_isDigit (hd c h)

theorem isSep_numeral (D : List Char) (hD : isNumeral D = true) : ∀ c ∈ D, isSep c = false :=
  isSep_signed_numeral [] D (Or.inl rfl) hD

theorem head_numeral (M rest : List Char) (hM : isNumeral M = true) :
    ∀ c ∈ (M ++ rest).head?, isSep c = false := by
  obtain ⟨hne, hd⟩ := (isNumeral_iff M).mp hM
  cases M with
  | nil => exact absurd rfl hne
  | cons c cs =>
    intro x hx
    simp only [List.cons_append, List.head?_cons, Option.mem_def, Option.some.injEq] at hx
    subst hx
    exact isSep_of_isDigit (hd _ (List.mem_cons_self _ _))

theorem count_minus_numeral (D : List Char) (hD : isNumeral D = true) : D.count '-' = 0 := by
  obtain ⟨_, hd⟩ := (isNumeral_iff D).mp hD
  exact List.count_eq_zero.mpr (fun h => ne_minus_of_isDigit (hd _ h) rfl)

theorem count_minus_seps (t : List Char) (ht : ∀ c ∈ t, isSep c = true) : t.count '-' = 0 :=
  List.count_eq_zero.mpr (fun h => ne_minus_of_isSep (ht _ h) rfl)

theorem count_minus_sepRun (p : List Char) (hp : isSepRun p = true) : p.count '-' = 0 :=
  count_minus_seps p ((isSepRun_iff p).mp hp).2

theorem count_minus_sign (sg : List Char) (hsg : sg = [] ∨ sg = ['-']) :
    sg.count '-' = (if sg = [] then 0 else 1) := by
  rcases hsg with rfl | rfl <;> decide

/-- The sign of a parsed text that carries the optional leading `-` in `sg`. -/
theorem sign_of_leading (sg : List Char) (hsg : sg = [] ∨ sg = ['-']) (n : ℕ)
    (hn : n = (if sg = [] then 0 else 1)) :
    (if sg = [] then (1 : ℚ) else -1) = (if n ≠ 0 then -1 else 1) := by
  rcases hsg with rfl | rfl <;> simp [hn]

/-- Parsing `[-]D p1 M p2 S t`: three numerals joined by separator runs, an optional `-`
in front, any separator characters behind. -/
theorem parse_triple_text (sg D M S p1 p2 t : List Char) (hsg : sg = [] ∨ sg = ['-'])
    (hD : isNumeral D = true) (hM : isNumeral M = true) (hS : isNumeral S = true)
    (hp1 : isSepRun p1 = true) (hp2 : isSepRun p2 = true) (ht : ∀ c ∈ t, isSep c = true)
    (hm : digitsVal M < 60) (hs : digitsVal S < 60) (hDb : digitsVal D ≤ 2 ^ 1023) :
    Dms.parse (some (String.mk (sg ++ D ++ p1 ++ M ++ p2 ++ S ++ t))) =
      .ok (some (Dms.mk (digitsVal D) (digitsVal M) (digitsVal S)
        (if sg = [] then 1 else -1))) := by
  have hcount : (sg ++ D ++ p1 ++ M ++ p2 ++ S ++ t).count '-' = (if sg = [] then 0 else 1) := by
    simp only [List.count_append, count_minus_numeral _ hD, count_minus_numeral _ hM,
      count_minus_numeral _ hS, count_minus_sepRun _ hp1, count_minus_sepRun _ hp2,
      count_minus_seps _ ht, count_minus_sign sg hsg, add_zero]
  obtain ⟨tl, htl⟩ := splitSeparators_token_trail S t (isSep_numeral S hS) ht
  have hsplit : splitSeparators (sg ++ D ++ p1 ++ M ++ p2 ++ S ++ t) =
      (sg ++ D) :: M :: S :: tl := by
    have e : sg ++ D ++ p1 ++ M ++ p2 ++ S ++ t =
        (sg ++ D) ++ (p1 ++ (M ++ (p2 ++ (S ++ t)))) := by simp only [List.append_assoc]
    rw [e, splitSeparators_token_run _ _ _ (isSep_signed_numeral sg D hsg hD) hp1
        (head_numeral M _ hM),
      splitSeparators_token_run _ _ _ (isSep_numeral M hM) hp2 (head_numeral S _ hS), htl]
  obtain ⟨hDne, _⟩ := (isNumeral_iff D).mp hD
  refine (parse_eq_some_iff _ _).mpr ⟨?_, ?_, ⟨?_, ?_, ?_, ?_⟩, ?_⟩
  · simp [hDne]
  · rw [hcount]; split_ifs <;> omega
  · rw [hsplit]; exact parseF_signed_numeral sg D hsg hD hDb
  · rw [hsplit]; exact parseF_numeral M hM (small_le_bound hm)
  · rw [hsplit]; exact parseF_numeral S hS (small_le_bound hs)
  · exact sign_of_leading sg hsg _ hcount
  · refine ⟨Nat.cast_nonneg _, ⟨Nat.cast_nonneg _, ?_⟩, ⟨Nat.cast_nonneg _, ?_⟩, ?_⟩
    · show ((digitsVal M : ℕ) : ℚ) < 60
      exact_mod_cast hm
    · show ((digitsVal S : ℕ) : ℚ) < 60
      exact_mod_cast hs
    · rcases hsg with rfl | rfl <;> simp


/-- Parsing `[-]D p M`: two numerals joined by a separator run. -/
theorem parse_pair_text (sg D M p : List Char) (hsg : sg = [] ∨ sg = ['-'])
    (hD : isNumeral D = true) (hM : isNumeral M = true) (hp : isSepRun p = true)
    (hm : digitsVal M < 60) (hDb : digitsVal D ≤ 2 ^ 1023) :
    Dms.parse (some (String.mk (sg ++ D ++ p ++ M))) =
      .ok (some (Dms.mk (digitsVal D) (digitsVal M) 0 (if sg = [] then 1 else -1))) := by
  have hcount : (sg ++ D ++ p ++ M).count '-' = (if sg = [] then 0 else 1) := by
    simp only [List.count_append, count_minus_numeral _ hD, count_minus_numeral _ hM,
      count_minus_sepRun _ hp, count_minus_sign sg hsg, add_zero]
  have hsplit : splitSeparators (sg ++ D ++ p ++ M) = [sg ++ D, M] := by
    have e : sg ++ D ++ p ++ M = (sg ++ D) ++ (p ++ (M ++ [])) := by
      simp only [List.append_assoc, List.append_nil]
    rw [e, splitSeparators_token_run _ _ _ (isSep_signed_numeral sg D hsg hD) hp
        (head_numeral M _ hM), splitSeparators_token M [] (isSep_numeral M hM)]
    simp [splitSeparators]
  obtain ⟨hDne, _⟩ := (isNumeral_iff D).mp hD
  refine (parse_eq_some_iff _ _).mpr ⟨?_, ?_, ⟨?_, ?_, ?_, ?_⟩, ?_⟩
  · simp [hDne]
  · rw [hcount]; split_ifs <;> omega
  · rw [hsplit]; exact parseF_signed_numeral sg D hsg hD hDb
  · rw [hsplit]; exact parseF_numeral M hM (small_le_bound hm)
  · rw [hsplit]; rfl
  · exact sign_of_leading sg hsg _ hcount
  · refine ⟨Nat.cast_nonneg _, ⟨Nat.cast_nonneg _, ?_⟩, ⟨le_refl _, by norm_num⟩, ?_⟩
    · show ((digitsVal M : ℕ) : ℚ) < 60
      exact_mod_cast hm
    · rcases hsg with rfl | rfl <;> simp

/-- Parsing `[-]D`: one numeral alone. -/
theorem parse_single_text (sg D : List Char) (hsg : sg = [] ∨ sg = ['-'])
    (hD : isNumeral D = true) (hDb : digitsVal D ≤ 2 ^ 1023) :
    Dms.parse (some (String.mk (sg ++ D))) =
      .ok (some (Dms.mk (digitsVal D) 0 0 (if sg = [] then 1 else -1))) := by
  have hcount : (sg ++ D).count '-' = (if sg = [] then 0 else 1) := by
    simp only [List.count_append, count_minus_numeral _ hD, count_minus_sign sg hsg, add_zero]
  have hsplit : splitSeparators (sg ++ D) = [sg ++ D] := by
    have e : sg ++ D = (sg ++ D) ++ [] := by simp only [List.append_nil]
    rw [e, splitSeparators_token _ [] (isSep_signed_numeral sg D hsg hD)]
    simp [splitSeparators]
  obtain ⟨hDne, _⟩ := (isNumeral_iff D).mp hD
  refine (parse_eq_some_iff _ _).mpr ⟨?_, ?_, ⟨?_, ?_, ?_, ?_⟩, ?_⟩
  · simp [hDne]
  · rw [hcount]; split_ifs <;> omega
  · rw [hsplit]; exact parseF_signed_numeral sg D hsg hD hDb
  · rw [hsplit]; rfl
  · rw [hsplit]; rfl
  · exact sign_of_leading sg hsg _ hcount
  · refine ⟨Nat.cast_nonneg _, ⟨le_refl _, by norm_num⟩, ⟨le_refl _, by norm_num⟩, ?_⟩
    rcases hsg with rfl | rfl <;> simp

/-- C4. `Dms.parse` fails quietly. On every input it returns, never throws, and what it
returns is either `undefined` or an angle that satisfies all the constraints of the component
constructor. A text one of whose first three pieces gives a magnitude that is not numeric, or
whose minutes or seconds magnitude is 60 or more, gives `undefined`. -/
theorem parse_fails_quietly (str : Option String) :
    (∃ r, Dms.parse str = .ok r ∧ (r = none ∨ ∃ a, r = some a ∧ a.Valid)) ∧
    (∀ s, str = some s →
      (isNumeric (.num (parseF ((splitSeparators s.data).get? 0))) = false ∨
        isNumeric (.num (parseF ((splitSeparators s.data).get? 1))) = false ∨
        isNumeric (.num (parseF ((splitSeparators s.data).get? 2))) = false ∨
        (parseF ((splitSeparators s.data).get? 1)).ge 60 = true ∨
        (parseF ((splitSeparators s.data).get? 2)).ge 60 = true) →
      Dms.parse str = .ok none) := by
  constructor
  · obtain ⟨r, hr⟩ := parse_total str
    refine ⟨r, hr, ?_⟩
    cases r with
    | none => exact Or.inl rfl
    | some a =>
      cases str with
      | none => exact absurd (Except.ok.inj hr) (by simp)
      | some s => exact Or.inr ⟨a, rfl, ((parse_eq_some_iff s a).mp hr).2.2.2⟩
  · rintro s rfl hbad
    obtain ⟨r, hr⟩ := parse_total (some s)
    cases r with
    | none => exact hr
    | some a =>
      obtain ⟨_, _, ⟨h0, h1, h2, _⟩, _, ⟨_, hm⟩, ⟨_, hs⟩, _⟩ := (parse_eq_some_iff s a).mp hr
      rw [h0, h1, h2] at hbad
      simp only [isNumeric_fin, Bool.true_eq_false, false_or, JSNum.ge, decide_eq_true_eq]
        at hbad
      rcases hbad with h | h
      · exact absurd hm (not_lt.mpr h)
      · exact absurd hs (not_lt.mpr h)

/-- Witness for C4: in `"1 60 0"` the minutes piece reads 60, and the result is
`undefined`. -/
theorem parse_fails_quietly_witness : Dms.parse (some "1 60 0") = .ok none := by
  refine (parse_fails_quietly (some "1 60 0")).2 "1 60 0" rfl (Or.inr (Or.inr (Or.inr (Or.inl ?_))))
  have hsplit : splitSeparators "1 60 0".data = ["1".data, "60".data, "0".data] := by decide
  have hval : digitsVal "60".data = 60 := by decide
  rw [hsplit]
  show (parseF (some "60".data)).ge 60 = true
  rw [parseF_numeral _ (by decide) (le_bound_of_small (by decide)), hval]
  simp [JSNum.ge]

/-- C5. Early rejection in `Dms.parse`: an absent text, the empty text and every text with
two or more `-` characters give `undefined`, whatever else the text holds. -/
theorem parse_early_rejection :
    Dms.parse none = .ok none ∧ Dms.parse (some "") = .ok none ∧
    (∀ s : String, 2 ≤ s.data.count '-' → Dms.parse (some s) = .ok none) := by
  refine ⟨rfl, rfl, ?_⟩
  intro s hs
  obtain ⟨r, hr⟩ := parse_total (some s)
  cases r with
  | none => exact hr
  | some a =>
    have := ((parse_eq_some_iff s a).mp hr).2.1
    omega

/-- Witness for C5: `"12-34-56"` holds two `-` characters. -/
theorem parse_early_rejection_witness :
    2 ≤ "12-34-56".data.count '-' ∧ Dms.parse (some "12-34-56") = .ok none :=
  ⟨by decide, parse_early_rejection.2.2 "12-34-56" (by decide)⟩

/-- C6 (as amended). Parsing a well-formed triple. Let `D`, `M`, `S` be decimal numerals of
the natural numbers `d <= 2^53`, `m < 60`, `s < 60`, joined by non-empty runs `p1`, `p2` of
separator characters and followed by any separator characters `t` (possibly none). The text
`D p1 M p2 S t` parses to the angle `d, m, s` with sign `+1`, and the same text with one `-`
in front parses to the same magnitudes with sign `-1`. Every natural number has such a
numeral, its usual decimal representation. -/
theorem parse_well_formed_triple (d m s : ℕ) (D M S p1 p2 t : List Char)
    (hD : isNumeral D = true) (hd : digitsVal D = d)
    (hM : isNumeral M = true) (hm : digitsVal M = m)
    (hS : isNumeral S = true) (hs : digitsVal S = s)
    (hd53 : d ≤ 2 ^ 53) (hm60 : m < 60) (hs60 : s < 60)
    (hp1 : isSepRun p1 = true) (hp2 : isSepRun p2 = true) (ht : t.all isSep = true) :
    Dms.parse (some (String.mk (D ++ p1 ++ M ++ p2 ++ S ++ t))) =
      .ok (some (Dms.mk d m s 1)) ∧
    Dms.parse (some (String.mk ('-' :: (D ++ p1 ++ M ++ p2 ++ S ++ t)))) =
      .ok (some (Dms.mk d m s (-1))) ∧
    (isNumeral (Nat.toDigits 10 d) = true ∧ digitsVal (Nat.toDigits 10 d) = d) := by
  subst hd hm hs
  have ht2 : ∀ c ∈ t, isSep c = true := List.all_eq_true.mp ht
  have hDb : digitsVal D ≤ 2 ^ 1023 := exact_bound hd53
  refine ⟨?_, ?_, toDigits_numeral _⟩
  · have := parse_triple_text [] D M S p1 p2 t (Or.inl rfl) hD hM hS hp1 hp2 ht2 hm60 hs60 hDb
    simpa using this
  · have := parse_triple_text ['-'] D M S p1 p2 t (Or.inr rfl) hD hM hS hp1 hp2 ht2 hm60 hs60
      hDb
    simpa using this

/-- Witness for C6: the texts `45 30 15` and `-10° 0' 0"`. -/
theorem parse_well_formed_triple_witness :
    Dms.parse (some "45 30 15") = .ok (some (Dms.mk 45 30 15 1)) ∧
    Dms.parse (some "-10° 0' 0\"") = .ok (some (Dms.mk 10 0 0 (-1))) := by
  have h1 := (parse_well_formed_triple 45 30 15 "45".data "30".data "15".data " ".data " ".data []
    (by decide) (by decide) (by decide) (by decide) (by decide) (by decide) (by norm_num)
    (by decide) (by decide) (by decide) (by decide) (by decide)).1
  have h2 := (parse_well_formed_triple 10 0 0 "10".data "0".data "0".data "° ".data "' ".data
    "\"".data (by decide) (by decide) (by decide) (by decide) (by decide) (by decide)
    (by norm_num) (by decide) (by decide) (by decide) (by decide) (by decide)).2.1
  constructor
  · simpa using h1
  · simpa using h2

/-- C7. The sign rule of `Dms.parse`: whenever it returns an angle, the text holds no `-` or
exactly one; the sign is `+1` in the first case and `-1` in the second; and `degs`, `mins`
and `secs` are all non-negative. -/
theorem parse_sign_rule (s : String) (a : Dms) (h : Dms.parse (some s) = .ok (some a)) :
    (s.data.count '-' = 1 → a.sign = -1) ∧ (s.data.count '-' = 0 → a.sign = 1) ∧
    (s.data.count '-' = 0 ∨ s.data.count '-' = 1) ∧
    0 ≤ a.degs ∧ 0 ≤ a.mins ∧ 0 ≤ a.secs := by
  obtain ⟨_, hc, ⟨_, _, _, hsign⟩, hd, ⟨hm, _⟩, ⟨hs, _⟩, _⟩ := (parse_eq_some_iff s a).mp h
  refine ⟨?_, ?_, by omega, hd, hm, hs⟩
  · intro h1; rw [hsign, h1]; rfl
  · intro h0; rw [hsign, h0]; rfl

/-- Witness for C7: `-12 34 56` holds one `-`; it parses, and the sign is `-1`. -/
theorem parse_sign_rule_witness :
    Dms.parse (some "-12 34 56") = .ok (some (Dms.mk 12 34 56 (-1))) ∧
    (Dms.mk 12 34 56 (-1)).sign = -1 ∧ 0 ≤ (Dms.mk 12 34 56 (-1)).degs := by
  have h : Dms.parse (some "-12 34 56") = .ok (some (Dms.mk 12 34 56 (-1))) := by
    have := parse_triple_text "-".data "12".data "34".data "56".data " ".data " ".data []
      (Or.inr rfl) (by decide) (by decide) (by decide) (by decide) (by decide) (by simp)
      (by decide) (by decide) (le_bound_of_small (by decide))
    simpa using this
  exact ⟨h, (parse_sign_rule _ _ h).1 (by decide), (parse_sign_rule _ _ h).2.2.2.1⟩

/-- C8 (as amended). Missing pieces default to 0 in `Dms.parse`. With `D` and `M` decimal
numerals of the natural numbers `d <= 2^53` and `m < 60` and `p` a non-empty run of separator
characters, the text `D` alone parses to the angle `d, 0, 0` and the text `D p M` to the angle
`d, m, 0`, both with sign `+1`. -/
theorem parse_missing_default_zero (d m : ℕ) (D M p : List Char)
    (hD : isNumeral D = true) (hd : digitsVal D = d)
    (hM : isNumeral M = true) (hm : digitsVal M = m) (hd53 : d ≤ 2 ^ 53) (hm60 : m < 60)
    (hp : isSepRun p = true) :
    Dms.parse (some (String.mk D)) = .ok (some (Dms.mk d 0 0 1)) ∧
    Dms.parse (some (String.mk (D ++ p ++ M))) = .ok (some (Dms.mk d m 0 1)) := by
  subst hd hm
  have hDb : digitsVal D ≤ 2 ^ 1023 := exact_bound hd53
  constructor
  · have := parse_single_text [] D (Or.inl rfl) hD hDb
    simpa using this
  · have := parse_pair_text [] D M p (Or.inl rfl) hD hM hp hm60 hDb
    simpa using this

/-- Witness for C8: the texts `12` and `12 30`. -/
theorem parse_missing_default_zero_witness :
    Dms.parse (some "12") = .ok (some (Dms.mk 12 0 0 1)) ∧
    Dms.parse (some "12 30") = .ok (some (Dms.mk 12 30 0 1)) := by
  have h := parse_missing_default_zero 12 30 "12".data "30".data " ".data
    (by decide) (by decide) (by decide) (by decide) (by norm_num) (by decide) (by decide)
  constructor
  · simpa using h.1
  · simpa using h.2

/-! ## Properties of `toString` -/

theorem numberToString_natCast (fracStr : ℚ → String) (n : ℕ) :
    numberToString fracStr (n : ℚ) = natToString n := by
  unfold numberToString
  rw [if_pos (Rat.den_natCast n), if_neg (not_lt.mpr (Nat.cast_nonneg n))]
  simp

/-- Seconds from 59.5 up to 60.5 excluded are fixed to `"60"` at 0 fraction digits. -/
theorem toFixed_zero_sixty (fracStr : ℚ → String) (x : ℚ) (h1 : 119 / 2 ≤ x) (h2 : x < 121 / 2) :
    toFixed fracStr x 0 = .ok "60" := by
  have hfloor : ⌊x * 10 ^ 0 + 1 / 2⌋ = 60 := by
    rw [Int.floor_eq_iff]
    constructor <;> norm_num <;> linarith
  have hx : ¬x < 0 := by linarith
  have hbig : ¬x ≥ 10 ^ 21 := by
    have : (121 : ℚ) / 2 < 10 ^ 21 := by norm_num
    linarith
  simp only [toFixed, if_neg hx, hfloor, if_neg hbig]
  rfl

/-- The formatted text when the seconds are fixed to `"60"`. -/
theorem toString_zero_rollover (fracStr : ℚ → String) (a : Dms) (n : ℕ)
    (hd : a.degs = n) (hm : a.mins = 59) (h1 : 119 / 2 ≤ a.secs) (h2 : a.secs < 121 / 2) :
    Dms.toString fracStr a 0 =
      .ok ((if a.sign < 0 then "-" else "") ++ natToString (n + 1) ++ "°" ++ "0" ++ "'" ++
        "0" ++ "\"") := by
  unfold Dms.toString
  rw [toFixed_zero_sixty fracStr a.secs h1 h2]
  have hd1 : a.degs + 1 = ((n + 1 : ℕ) : ℚ) := by rw [hd]; push_cast; ring
  have hm1 : a.mins + 1 = 60 := by rw [hm]; norm_num
  have hs : (stringToNumber "60".data).eqNum 60 = true := by
    have hval : digitsVal "60".data = 60 := by decide
    rw [stringToNumber_numeral _ (by decide) (le_bound_of_small (by decide)), hval]
    simp [JSNum.eqNum]
  have h0 : numberToString fracStr 0 = "0" := by
    have := numberToString_natCast fracStr 0
    rw [Nat.cast_zero] at this
    rw [this]; decide
  simp only [beq_self_eq_true, if_true, hd1, hm1, normalize, hs, NumOrStr.text,
    numberToString_natCast, h0]


/-- The angle derived from the decimal `35.999999999`. -/
theorem new_decimal_example :
    Dms.new (decimalArgs (35999999999 / 1000000000)) =
      .ok (Dms.mk 35 59 (599999964 / 10000000) 1) := by
  have hv : |(35999999999 / 1000000000 : ℚ)| = 35999999999 / 1000000000 :=
    abs_of_pos (by norm_num)
  have hf1 : ⌊(35999999999 / 1000000000 : ℚ)⌋ = 35 := by
    rw [Int.floor_eq_iff]; constructor <;> norm_num
  have hf2 : ⌊((35999999999 / 1000000000 : ℚ) - ((35 : ℤ) : ℚ)) * 60⌋ = 59 := by
    rw [Int.floor_eq_iff]; constructor <;> norm_num
  rw [new_decimal_eq, hv, hf1, hf2]
  norm_num

/-- C10. Rollover at both boundaries. For every angle whose `degs` is a natural number `n`,
whose `mins` is 59 and whose `secs` round to 60 at 0 fraction digits (`59.5 <= secs < 60`),
`toString(0)` is the sign, then the number `n + 1`, then `°0'0"`: degrees `degs + 1`,
minutes 0 and seconds 0. In particular the angle derived from the decimal `35.999999999`
formats with 0 fraction digits as `36°0'0"` and not as `35°59'60"`. -/
theorem toString_rollover_both_boundaries (fracStr : ℚ → String) :
    (∀ (a : Dms) (n : ℕ), a.degs = n → a.mins = 59 → 119 / 2 ≤ a.secs → a.secs < 60 →
      Dms.toString fracStr a 0 =
        .ok ((if a.sign < 0 then "-" else "") ++ natToString (n + 1) ++ "°" ++ "0" ++ "'" ++
          "0" ++ "\"")) ∧
    (∃ a, Dms.new (decimalArgs (35999999999 / 1000000000)) = .ok a ∧
      Dms.toString fracStr a 0 = .ok "36°0'0\"" ∧
      Dms.toString fracStr a 0 ≠ .ok "35°59'60\"") := by
  constructor
  · intro a n hd hm h1 h2
    exact toString_zero_rollover fracStr a n hd hm h1 (by linarith)
  · have h := toString_zero_rollover fracStr (Dms.mk 35 59 (599999964 / 10000000) 1) 35
      (by norm_num) rfl (by norm_num) (by norm_num)
    have hsign : ¬((1 : ℚ) < 0) := by norm_num
    simp only [if_neg hsign] at h
    have hs : ("" ++ natToString (35 + 1) ++ "°" ++ "0" ++ "'" ++ "0" ++ "\"" : String) =
        "36°0'0\"" := by decide
    rw [hs] at h
    refine ⟨_, new_decimal_example, h, ?_⟩
    rw [h]
    intro hc
    exact absurd (Except.ok.inj hc) (by decide)

/-- Witness for C10: the angle `35° 59' 59.7"` with sign `-1` formats with 0 fraction digits
as `-36°0'0"`. -/
theorem toString_rollover_both_boundaries_witness :
    Dms.toString (fun _ => "") (Dms.mk 35 59 (597 / 10) (-1)) 0 = .ok "-36°0'0\"" := by
  have h := (toString_rollover_both_boundaries (fun _ => "")).1 (Dms.mk 35 59 (597 / 10) (-1)) 35
    (by norm_num) rfl (by norm_num) (by norm_num)
  have hsign : ((-1 : ℚ) < 0) := by norm_num
  simp only [if_pos hsign] at h
  have hs : ("-" ++ natToString (35 + 1) ++ "°" ++ "0" ++ "'" ++ "0" ++ "\"" : String) =
      "-36°0'0\"" := by decide
  rw [hs] at h
  exact h

/-! ## More properties of `toString` -/

theorem toFixed_eq_fixedText (fracStr : ℚ → String) (x : ℚ) (f : ℕ)
    (hx0 : 0 ≤ x) (hx : x < 10 ^ 21) (hf : f ≤ 100) :
    toFixed fracStr x f = .ok (fixedText ⌊x * 10 ^ f + 1 / 2⌋.toNat f) := by
  have h1 : ¬x < 0 := not_lt.mpr hx0
  have h2 : ¬x ≥ 10 ^ 21 := not_le.mpr hx
  have h3 : ¬f > 100 := by omega
  simp only [toFixed, if_neg h1, if_neg h2, if_neg h3, fixedText, String.empty_append]
  split_ifs <;> rfl

theorem toString_of_toFixed (fracStr : ℚ → String) (a : Dms) (f : ℕ) (s : String)
    (h : toFixed fracStr a.secs f = .ok s) :
    Dms.toString fracStr a f =
      .ok ((if a.sign < 0 then "-" else "") ++
        numberToString fracStr (a.degs + (if s == "60" then 1 else 0)) ++ "°" ++
        (normalize (.num (a.mins + (if s == "60" then 1 else 0)))).text fracStr ++ "'" ++
        (normalize (.str s)).text fracStr ++ "\"") := by
  unfold Dms.toString
  rw [h]

theorem numberToString_zero (fracStr : ℚ → String) : numberToString fracStr 0 = "0" := by
  have := numberToString_natCast fracStr 0
  rw [Nat.cast_zero] at this
  rw [this]; decide

/-- C11 (the code at the failing input). The angle `10° 20' 59.9"` formats with 0 fraction
digits as `11°21'0"`: the seconds are fixed to `"60"`, and the source adds 1 to the degrees
as well as to the minutes, although the minutes only go from 20 to 21. -/
theorem toString_carries_degree_without_minutes (fracStr : ℚ → String) :
    Dms.toString fracStr (Dms.mk 10 20 (599 / 10) 1) 0 = .ok "11°21'0\"" := by
  have hfix : toFixed fracStr (599 / 10) 0 = .ok "60" :=
    toFixed_zero_sixty fracStr (599 / 10) (by norm_num) (by norm_num)
  rw [toString_of_toFixed fracStr (Dms.mk 10 20 (599 / 10) 1) 0 "60" hfix]
  have hs : (stringToNumber "60".data).eqNum 60 = true := by
    have hval : digitsVal "60".data = 60 := by decide
    rw [stringToNumber_numeral _ (by decide) (le_bound_of_small (by decide)), hval]
    simp [JSNum.eqNum]
  have hd : (10 : ℚ) + 1 = ((11 : ℕ) : ℚ) := by norm_num
  have hm : (20 : ℚ) + 1 = ((21 : ℕ) : ℚ) := by norm_num
  have hm60 : ¬(((21 : ℕ) : ℚ) = 60) := by norm_num
  have hsign : ¬((1 : ℚ) < 0) := by norm_num
  simp only [beq_self_eq_true, if_true, hd, hm, normalize, hs, NumOrStr.text,
    numberToString_natCast, numberToString_zero, if_neg hm60, if_neg hsign]
  rfl

/-- C12 (the code at the failing input). The angle `10° 20' 59.99"` formats with 1 fraction
digit as `10°20'0"`: the seconds are fixed to `"60.0"`, which `normalize` shows as `0`, but
the comparison with the string `"60"` fails and the minutes stay at 20. -/
theorem toString_loses_minute_at_one_digit (fracStr : ℚ → String) :
    toFixed fracStr (5999 / 100) 1 = .ok "60.0" ∧
    Dms.toString fracStr (Dms.mk 10 20 (5999 / 100) 1) 1 = .ok "10°20'0\"" := by
  have hfloor : ⌊(5999 / 100 : ℚ) * 10 ^ 1 + 1 / 2⌋ = 600 := by
    rw [Int.floor_eq_iff]; constructor <;> norm_num
  have hfix : toFixed fracStr (5999 / 100) 1 = .ok "60.0" := by
    rw [toFixed_eq_fixedText fracStr (5999 / 100) 1 (by norm_num) (by norm_num) (by norm_num), hfloor]
    rfl
  refine ⟨hfix, ?_⟩
  rw [toString_of_toFixed fracStr (Dms.mk 10 20 (5999 / 100) 1) 1 "60.0" hfix]
  have hs : (stringToNumber "60.0".data).eqNum 60 = true := by
    have h1 : stringToNumber "60.0".data =
        numberOfLiteral ((digitsVal "60".data : ℚ) + (digitsVal "0".data : ℚ) / 10 ^ 1) := rfl
    have hv1 : digitsVal "60".data = 60 := by decide
    have hv2 : digitsVal "0".data = 0 := by decide
    rw [h1, hv1, hv2, numberOfLiteral_of_lt (lt_overflowBound_of_le (by norm_num))]
    simp [JSNum.eqNum]
  have hne : ("60.0" == "60") = false := by decide
  have hd : (10 : ℚ) + 0 = ((10 : ℕ) : ℚ) := by norm_num
  have hm : (20 : ℚ) + 0 = ((20 : ℕ) : ℚ) := by norm_num
  have hm60 : ¬(((20 : ℕ) : ℚ) = 60) := by norm_num
  have hsign : ¬((1 : ℚ) < 0) := by norm_num
  simp only [hne, Bool.false_eq_true, if_false, hd, hm, normalize, hs, NumOrStr.text,
    numberToString_natCast, numberToString_zero, if_neg hm60, if_neg hsign, if_true]
  rfl

/-! ## The constructor's errors -/

theorem eq_fin_of_isNumeric {v : JSVal} (h : isNumeric v = true) : ∃ q, v = .num (.fin q) := by
  cases v with
  | undefined => exact absurd h (by decide)
  | num n =>
    cases n with
    | fin q => exact ⟨q, rfl⟩
    | nan => exact absurd h (by decide)
    | posInf => exact absurd h (by decide)
    | negInf => exact absurd h (by decide)

/-- The component constructor on any four values: which message it throws. -/
theorem new_four_values (v0 v1 v2 v3 : JSVal) :
    ((isNumeric v0 && (toNumber v0).ge 0) = false →
      Dms.new [v0, v1, v2, v3] =
        .error "Degrees argument to Dms() must be a non-negative number.") ∧
    ((isNumeric v0 && (toNumber v0).ge 0) = true →
      (isNumeric v1 && (toNumber v1).ge 0 && (toNumber v1).lt 60) = false →
      Dms.new [v0, v1, v2, v3] =
        .error "Minutes argument to Dms() must be a number gte 0 and lt 60.") ∧
    ((isNumeric v0 && (toNumber v0).ge 0) = true →
      (isNumeric v1 && (toNumber v1).ge 0 && (toNumber v1).lt 60) = true →
      (isNumeric v2 && (toNumber v2).ge 0 && (toNumber v2).lt 60) = false →
      Dms.new [v0, v1, v2, v3] =
        .error "Seconds argument to Dms() must be a number gte 0 and lt 60.") ∧
    ((isNumeric v0 && (toNumber v0).ge 0) = true →
      (isNumeric v1 && (toNumber v1).ge 0 && (toNumber v1).lt 60) = true →
      (isNumeric v2 && (toNumber v2).ge 0 && (toNumber v2).lt 60) = true →
      (isNumeric v3 && ((toNumber v3).eqNum 1 || (toNumber v3).eqNum (-1))) = false →
      Dms.new [v0, v1, v2, v3] = .error "Sign argument to Dms() must be 1 or -1.") ∧
    ((isNumeric v0 && (toNumber v0).ge 0) = true →
      (isNumeric v1 && (toNumber v1).ge 0 && (toNumber v1).lt 60) = true →
      (isNumeric v2 && (toNumber v2).ge 0 && (toNumber v2).lt 60) = true →
      (isNumeric v3 && ((toNumber v3).eqNum 1 || (toNumber v3).eqNum (-1))) = true →
      ∃ a, Dms.new [v0, v1, v2, v3] = .ok a) := by
  have hnew : Dms.new [v0, v1, v2, v3] =
      (match isNumeric v0 && (toNumber v0).ge 0, toNumber v0 with
      | true, .fin d =>
        match isNumeric v1 && (toNumber v1).ge 0 && (toNumber v1).lt 60, toNumber v1 with
        | true, .fin m =>
          match isNumeric v2 && (toNumber v2).ge 0 && (toNumber v2).lt 60, toNumber v2 with
          | true, .fin s =>
            match isNumeric v3 && ((toNumber v3).eqNum 1 || (toNumber v3).eqNum (-1)),
                toNumber v3 with
            | true, .fin g => .ok { degs := d, mins := m, secs := s, sign := g }
            | _, _ => .error "Sign argument to Dms() must be 1 or -1."
          | _, _ => .error "Seconds argument to Dms() must be a number gte 0 and lt 60."
        | _, _ => .error "Minutes argument to Dms() must be a number gte 0 and lt 60."
      | _, _ => .error "Degrees argument to Dms() must be a non-negative number.") := rfl
  have hfin : ∀ (v : JSVal) (b : Bool), (isNumeric v && b) = true → ∃ q, v = .num (.fin q) :=
    fun v b h => eq_fin_of_isNumeric (Bool.and_eq_true_iff.mp h).1
  have hfin3 : ∀ (v : JSVal) (b c : Bool), (isNumeric v && b && c) = true →
      ∃ q, v = .num (.fin q) :=
    fun v b c h => eq_fin_of_isNumeric
      (Bool.and_eq_true_iff.mp (Bool.and_eq_true_iff.mp h).1).1
  refine ⟨?_, ?_, ?_, ?_, ?_⟩
  · intro h0
    rw [hnew, h0]
  · intro h0 h1
    obtain ⟨d, rfl⟩ := hfin _ _ h0
    rw [hnew, h0, h1]
    rfl
  · intro h0 h1 h2
    obtain ⟨d, rfl⟩ := hfin _ _ h0
    obtain ⟨m, rfl⟩ := hfin3 _ _ _ h1
    rw [hnew, h0, h1, h2]
    rfl
  · intro h0 h1 h2 h3
    obtain ⟨d, rfl⟩ := hfin _ _ h0
    obtain ⟨m, rfl⟩ := hfin3 _ _ _ h1
    obtain ⟨s, rfl⟩ := hfin3 _ _ _ h2
    rw [hnew, h0, h1, h2, h3]
    rfl
  · intro h0 h1 h2 h3
    obtain ⟨d, rfl⟩ := hfin _ _ h0
    obtain ⟨m, rfl⟩ := hfin3 _ _ _ h1
    obtain ⟨s, rfl⟩ := hfin3 _ _ _ h2
    obtain ⟨g, rfl⟩ := hfin _ _ h3
    rw [hnew, h0, h1, h2, h3]
    exact ⟨_, rfl⟩


/-- C15 (as amended). When the component constructor fails, the error it throws names the
first argument, in the order degrees, minutes, seconds, sign, whose test fails: the degrees
message whenever `degs` is not numeric or is negative, whatever the other arguments are; the
minutes message when `degs` passes and `mins` is not numeric or not in `[0, 60)`; the seconds
message when both pass and `secs` does not; the sign message when the three pass and `sign`
is not numeric or is neither `1` nor `-1`. Each argument has a single message, which states
its whole constraint. -/
theorem constructor_error_names_first_argument (v0 v1 v2 v3 : JSVal) :
    ((isNumeric v0 && (toNumber v0).ge 0) = false →
      Dms.new [v0, v1, v2, v3] =
        .error "Degrees argument to Dms() must be a non-negative number.") ∧
    ((isNumeric v0 && (toNumber v0).ge 0) = true →
      (isNumeric v1 && (toNumber v1).ge 0 && (toNumber v1).lt 60) = false →
      Dms.new [v0, v1, v2, v3] =
        .error "Minutes argument to Dms() must be a number gte 0 and lt 60.") ∧
    ((isNumeric v0 && (toNumber v0).ge 0) = true →
      (isNumeric v1 && (toNumber v1).ge 0 && (toNumber v1).lt 60) = true →
      (isNumeric v2 && (toNumber v2).ge 0 && (toNumber v2).lt 60) = false →
      Dms.new [v0, v1, v2, v3] =
        .error "Seconds argument to Dms() must be a number gte 0 and lt 60.") ∧
    ((isNumeric v0 && (toNumber v0).ge 0) = true →
      (isNumeric v1 && (toNumber v1).ge 0 && (toNumber v1).lt 60) = true →
      (isNumeric v2 && (toNumber v2).ge 0 && (toNumber v2).lt 60) = true →
      (isNumeric v3 && ((toNumber v3).eqNum 1 || (toNumber v3).eqNum (-1))) = false →
      Dms.new [v0, v1, v2, v3] = .error "Sign argument to Dms() must be 1 or -1.") := by
  obtain ⟨h0, h1, h2, h3, _⟩ := new_four_values v0 v1 v2 v3
  exact ⟨h0, h1, h2, h3⟩

/-- Witness for C15: `new Dms(45, 60, 15, 1)` throws the minutes message. -/
theorem constructor_error_names_first_argument_witness :
    Dms.new [.num (.fin 45), .num (.fin 60), .num (.fin 15), .num (.fin 1)] =
      .error "Minutes argument to Dms() must be a number gte 0 and lt 60." :=
  (constructor_error_names_first_argument (.num (.fin 45)) (.num (.fin 60)) (.num (.fin 15))
    (.num (.fin 1))).2.1 (by simp [isNumeric_fin, toNumber, JSNum.ge])
    (by simp [isNumeric_fin, toNumber, JSNum.ge, JSNum.lt])

/-- Counterexample for C15 as stated: a `degs` that is not a number (`NaN`) and a `degs`
that is a number out of range (`-1`) throw the very same error, so the error does not tell
which of the two rules was violated. -/
theorem constructor_error_same_for_both_rules :
    Dms.new [.num .nan, .num (.fin 0), .num (.fin 0), .num (.fin 1)] =
      .error "Degrees argument to Dms() must be a non-negative number." ∧
    Dms.new [.num (.fin (-1)), .num (.fin 0), .num (.fin 0), .num (.fin 1)] =
      .error "Degrees argument to Dms() must be a non-negative number." := by
  constructor
  · rfl
  · exact (new_four_values _ _ _ _).1 (by simp [isNumeric_fin, toNumber, JSNum.ge])

/-! ## Canonical decomposition -/

theorem new_decimal_of_canonical (a : Dms) (n k : ℕ) (hv : a.Valid) (hd : a.degs = n)
    (hm : a.mins = k) (hs : a.sign = 1 ∨ a.degs + a.mins / 60 + a.secs / 3600 ≠ 0) :
    Dms.new (decimalArgs a.toDecimal) = .ok a := by
  obtain ⟨hd0, ⟨hm0, hm60⟩, ⟨hs0, hs60⟩, hg⟩ := hv
  have hk : (k : ℚ) ≤ 59 := by
    have : k < 60 := by rw [hm] at hm60; exact_mod_cast hm60
    exact_mod_cast Nat.lt_succ_iff.mp this
  have hmag0 : 0 ≤ a.degs + a.mins / 60 + a.secs / 3600 := by positivity
  have habs : |a.toDecimal| = (n : ℚ) + (k : ℚ) / 60 + a.secs / 3600 := by
    rw [← hd, ← hm]
    rcases hg with hg | hg
    · simp only [Dms.toDecimal, hg, one_mul]; exact abs_of_nonneg hmag0
    · simp only [Dms.toDecimal, hg, neg_mul, one_mul, abs_neg]; exact abs_of_nonneg hmag0
  have hsign : (if a.toDecimal < 0 then (-1 : ℚ) else 1) = a.sign := by
    rcases hg with hg | hg
    · have : ¬a.toDecimal < 0 := by
        simp only [Dms.toDecimal, hg, one_mul]; exact not_lt.mpr hmag0
      rw [if_neg this, hg]
    · rcases hs with hs | hs
      · rw [hs] at hg; norm_num at hg
      · have : a.toDecimal < 0 := by
          simp only [Dms.toDecimal, hg, neg_mul, one_mul]
          have := lt_of_le_of_ne hmag0 (Ne.symm hs)
          linarith
        rw [if_pos this, hg]
  have hf1 : ⌊(n : ℚ) + (k : ℚ) / 60 + a.secs / 3600⌋ = (n : ℤ) := by
    rw [Int.floor_eq_iff]; push_cast; constructor <;> linarith
  have hf2 : ⌊((n : ℚ) + (k : ℚ) / 60 + a.secs / 3600 - ((n : ℤ) : ℚ)) * 60⌋ = (k : ℤ) := by
    rw [Int.floor_eq_iff]; push_cast; constructor <;> linarith
  rw [new_decimal_eq, habs, hf1, hf2, hsign]
  congr 1
  cases a with
  | mk ad am as ag =>
    simp only [Dms.mk.injEq]
    simp only at hd hm
    refine ⟨?_, ?_, ?_, trivial⟩
    · rw [hd]; push_cast; rfl
    · rw [hm]; push_cast; rfl
    · push_cast; ring


/-- C19. Canonical decomposition, under exact arithmetic. Let `a` be an angle that the
component constructor accepts, with `degs` and `mins` natural numbers and with `sign = 1` or
a magnitude that is not zero. Then the decimal constructor applied to `a.toDecimal()` builds
`a` again, field by field. Hence `toDecimal` is injective on such angles. -/
theorem canonical_decomposition :
    (∀ (a : Dms) (n k : ℕ),
      Dms.new (componentArgs a.degs a.mins a.secs a.sign) = .ok a →
      a.degs = n → a.mins = k →
      (a.sign = 1 ∨ a.degs + a.mins / 60 + a.secs / 3600 ≠ 0) →
      Dms.new (decimalArgs a.toDecimal) = .ok a) ∧
    (∀ (a b : Dms) (n k n2 k2 : ℕ),
      Dms.new (componentArgs a.degs a.mins a.secs a.sign) = .ok a →
      Dms.new (componentArgs b.degs b.mins b.secs b.sign) = .ok b →
      a.degs = n → a.mins = k → b.degs = n2 → b.mins = k2 →
      (a.sign = 1 ∨ a.degs + a.mins / 60 + a.secs / 3600 ≠ 0) →
      (b.sign = 1 ∨ b.degs + b.mins / 60 + b.secs / 3600 ≠ 0) →
      a.toDecimal = b.toDecimal → a = b) := by
  have key : ∀ (a : Dms) (n k : ℕ),
      Dms.new (componentArgs a.degs a.mins a.secs a.sign) = .ok a →
      a.degs = n → a.mins = k →
      (a.sign = 1 ∨ a.degs + a.mins / 60 + a.secs / 3600 ≠ 0) →
      Dms.new (decimalArgs a.toDecimal) = .ok a :=
    fun a n k hnew hd hm hs =>
      new_decimal_of_canonical a n k (valid_of_new_components hnew).1 hd hm hs
  refine ⟨key, ?_⟩
  intro a b n k n2 k2 ha hb hd hm hd2 hm2 hs hs2 heq
  have h1 := key a n k ha hd hm hs
  have h2 := key b n2 k2 hb hd2 hm2 hs2
  rw [heq, h2] at h1
  exact (Except.ok.inj h1).symm

/-- Witness for C19: the angle `12° 30' 36"` with sign `-1`, decimal value `-12.51`, is what
the decimal constructor builds from `-12.51`. -/
theorem canonical_decomposition_witness :
    Dms.new (decimalArgs (Dms.mk 12 30 36 (-1)).toDecimal) = .ok (Dms.mk 12 30 36 (-1)) :=
  canonical_decomposition.1 (Dms.mk 12 30 36 (-1)) 12 30
    (new_components_of_valid (by norm_num)) (by norm_num) (by norm_num)
    (Or.inr (by norm_num))

/-! ## Pieces in general -/

theorem splitSeparators_head_sep (r : List Char) : ∀ c : Char, isSep c = true →
    ∃ tl, splitSeparators (c :: r) = [] :: tl := by
  induction r with
  | nil =>
    intro c hc
    exact ⟨[[]], by simp [splitSeparators, hc]⟩
  | cons c2 r2 ih =>
    intro c hc
    rw [splitSeparators]
    cases hsp : splitSeparators (c2 :: r2) with
    | nil => exact absurd hsp (splitSeparators_ne_nil _)
    | cons t ts =>
      simp only [hc, if_true]
      by_cases hc2 : isSep c2 = true
      · obtain ⟨tl, htl⟩ := ih c2 hc2
        rw [hsp] at htl
        simp only [hc2, if_true]
        exact ⟨tl, htl⟩
      · simp only [hc2]
        exact ⟨t :: ts, rfl⟩

/-- A piece followed by nothing, or by text that starts with a separator. -/
theorem splitSeparators_token_rest (tok rest : List Char)
    (ht : ∀ c ∈ tok, isSep c = false) (hrest : ∀ c ∈ rest.head?, isSep c = true) :
    ∃ tl, splitSeparators (tok ++ rest) = tok :: tl := by
  rw [splitSeparators_token tok rest ht]
  cases rest with
  | nil => exact ⟨[], by simp [splitSeparators]⟩
  | cons c r =>
    obtain ⟨tl, htl⟩ := splitSeparators_head_sep r c (hrest c (by simp))
    rw [htl]
    exact ⟨tl, by simp⟩

theorem head_nonsep (T rest : List Char) (hne : T ≠ []) (hT : ∀ c ∈ T, isSep c = false) :
    ∀ c ∈ (T ++ rest).head?, isSep c = false := by
  cases T with
  | nil => exact absurd rfl hne
  | cons c cs =>
    intro x hx
    simp only [List.cons_append, List.head?_cons, Option.mem_def, Option.some.injEq] at hx
    subst hx
    exact hT _ (List.mem_cons_self _ _)

/-- The first three pieces of `T0 p1 T1 p2 T2 rest`. -/
theorem splitSeparators_three (T0 T1 T2 p1 p2 rest : List Char)
    (h0 : ∀ c ∈ T0, isSep c = false)
    (h1 : ∀ c ∈ T1, isSep c = false) (h1ne : T1 ≠ [])
    (h2 : ∀ c ∈ T2, isSep c = false) (h2ne : T2 ≠ [])
    (hp1 : isSepRun p1 = true) (hp2 : isSepRun p2 = true)
    (hrest : ∀ c ∈ rest.head?, isSep c = true) :
    ∃ tl, splitSeparators (T0 ++ p1 ++ T1 ++ p2 ++ T2 ++ rest) = T0 :: T1 :: T2 :: tl := by
  obtain ⟨tl, htl⟩ := splitSeparators_token_rest T2 rest h2 hrest
  refine ⟨tl, ?_⟩
  have e : T0 ++ p1 ++ T1 ++ p2 ++ T2 ++ rest = T0 ++ (p1 ++ (T1 ++ (p2 ++ (T2 ++ rest)))) := by
    simp only [List.append_assoc]
  rw [e, splitSeparators_token_run _ _ _ h0 hp1 (head_nonsep T1 _ h1ne h1),
    splitSeparators_token_run _ _ _ h1 hp2 (head_nonsep T2 _ h2ne h2), htl]

/-- Parsing a text whose first three pieces read as three magnitudes in range. -/
theorem parse_three_pieces (T0 T1 T2 p1 p2 rest : List Char) (q0 q1 q2 : ℚ)
    (h0 : ∀ c ∈ T0, isSep c = false)
    (h1 : ∀ c ∈ T1, isSep c = false) (h1ne : T1 ≠ [])
    (h2 : ∀ c ∈ T2, isSep c = false) (h2ne : T2 ≠ [])
    (hp1 : isSepRun p1 = true) (hp2 : isSepRun p2 = true)
    (hrest : ∀ c ∈ rest.head?, isSep c = true)
    (hcount : (T0 ++ p1 ++ T1 ++ p2 ++ T2 ++ rest).count '-' ≤ 1)
    (hv0 : parseF (some T0) = .fin q0) (hv1 : parseF (some T1) = .fin q1)
    (hv2 : parseF (some T2) = .fin q2)
    (hq0 : 0 ≤ q0) (hq1 : 0 ≤ q1 ∧ q1 < 60) (hq2 : 0 ≤ q2 ∧ q2 < 60) :
    Dms.parse (some (String.mk (T0 ++ p1 ++ T1 ++ p2 ++ T2 ++ rest))) =
      .ok (some (Dms.mk q0 q1 q2
        (if (T0 ++ p1 ++ T1 ++ p2 ++ T2 ++ rest).count '-' ≠ 0 then -1 else 1))) := by
  obtain ⟨tl, htl⟩ := splitSeparators_three T0 T1 T2 p1 p2 rest h0 h1 h1ne h2 h2ne hp1 hp2 hrest
  refine (parse_eq_some_iff _ _).mpr ⟨?_, hcount, ⟨?_, ?_, ?_, rfl⟩, ?_⟩
  · cases T1 with
    | nil => exact absurd rfl h1ne
    | cons c cs => simp
  · show parseF ((splitSeparators (T0 ++ p1 ++ T1 ++ p2 ++ T2 ++ rest)).get? 0) = _
    rw [htl]; exact hv0
  · show parseF ((splitSeparators (T0 ++ p1 ++ T1 ++ p2 ++ T2 ++ rest)).get? 1) = _
    rw [htl]; exact hv1
  · show parseF ((splitSeparators (T0 ++ p1 ++ T1 ++ p2 ++ T2 ++ rest)).get? 2) = _
    rw [htl]; exact hv2
  · refine ⟨hq0, hq1, hq2, ?_⟩
    show (if (T0 ++ p1 ++ T1 ++ p2 ++ T2 ++ rest).count '-' ≠ 0 then (-1 : ℚ) else 1) = 1 ∨ _
    split_ifs
    · exact Or.inr rfl
    · exact Or.inl rfl

/-- A text one of whose first three pieces does not read as a number parses to
`undefined`. -/
theorem parse_none_of_piece (s : String)
    (h : isNumeric (.num (parseF ((splitSeparators s.data).get? 0))) = false ∨
      isNumeric (.num (parseF ((splitSeparators s.data).get? 1))) = false ∨
      isNumeric (.num (parseF ((splitSeparators s.data).get? 2))) = false) :
    Dms.parse (some s) = .ok none := by
  obtain ⟨r, hr⟩ := parse_total (some s)
  cases r with
  | none => exact hr
  | some a =>
    obtain ⟨_, _, ⟨h0, h1, h2, _⟩, _⟩ := (parse_eq_some_iff s a).mp hr
    rw [h0, h1, h2] at h
    simp [isNumeric_fin] at h

/-- A numeral with a `-` right behind it does not read as a number. -/
theorem stringToNumber_numeral_minus (D : List Char) (hD : isNumeral D = true) :
    stringToNumber (D ++ ['-']) = .nan := by
  obtain ⟨hne, hd⟩ := (isNumeral_iff D).mp hD
  have hspan : (D ++ ['-']).span (fun c => !(c == 'e' || c == 'E')) = (D ++ ['-'], []) := by
    apply span_all
    intro c hc
    rcases List.mem_append.mp hc with h | h
    · have := hd c h
      simp only [Bool.not_eq_true', Bool.or_eq_false_iff, beq_eq_false_iff_ne, ne_eq]
      constructor <;> (rintro rfl; exact absurd this (by decide))
    · rw [List.mem_singleton.mp h]; decide
  have hmant : mantissa? (D ++ ['-']) = none := by
    unfold mantissa?
    rw [List.span_eq_take_drop, List.takeWhile_append_of_pos hd,
      List.dropWhile_append_of_pos hd]
    rfl
  have huns : unsignedDecimal? (D ++ ['-']) = none := by
    unfold unsignedDecimal?
    rw [hspan]
    exact hmant
  cases D with
  | nil => exact absurd rfl hne
  | cons c cs =>
    have hc := hd c (List.mem_cons_self _ _)
    have h1 : c ≠ '-' := by rintro rfl; exact absurd hc (by decide)
    have h2 : c ≠ '+' := by rintro rfl; exact absurd hc (by decide)
    unfold stringToNumber
    split
    · rename_i heq; exact absurd heq (by simp)
    · rename_i heq; exact absurd (List.cons.inj heq).1 h1
    · rename_i heq; exact absurd (List.cons.inj heq).1 h2
    · rw [huns]

/-! ## Where the minus sign may stand -/

theorem parseF_empty : parseF (some []) = .fin 0 := by
  simp [parseF, stringToNumber, JSNum.abs]

theorem parseF_numeral_minus (D : List Char) (hD : isNumeral D = true) :
    isNumeric (.num (parseF (some (D ++ ['-'])))) = false := by
  simp only [parseF, stringToNumber_numeral_minus D hD, JSNum.abs]
  rfl

theorem isSep_numeral_minus (D : List Char) (hD : isNumeral D = true) :
    ∀ c ∈ D ++ ['-'], isSep c = false := by
  intro c hc
  rcases List.mem_append.mp hc with h | h
  · exact isSep_numeral D hD c h
  · rw [List.mem_singleton.mp h]; decide

theorem isSep_minus_numeral (D : List Char) (hD : isNumeral D = true) :
    ∀ c ∈ '-' :: D, isSep c = false :=
  isSep_signed_numeral ['-'] D (Or.inr rfl) hD

theorem numeral_ne_nil (D : List Char) (hD : isNumeral D = true) : D ≠ [] :=
  ((isNumeral_iff D).mp hD).1

theorem head_none_isSep : ∀ c ∈ ([] : List Char).head?, isSep c = true := by
  intro c hc; simp at hc

/-- C16 (as amended). Let `D`, `M`, `S` be decimal numerals of the natural numbers
`d <= 2^53`, `m < 60`, `s < 60` and `p1`, `p2` non-empty runs of separator characters. When
exactly one `-` is attached immediately before one of the three numerals of `D p1 M p2 S`, the text
parses to the angle `d, m, s` with sign `-1`, whichever numeral carries it. When the `-` is
attached immediately after one of the numerals, the piece that carries it does not read as a
number and the text parses to `undefined`. -/
theorem parse_single_minus_placement (d m s : ℕ) (D M S p1 p2 : List Char)
    (hD : isNumeral D = true) (hd : digitsVal D = d)
    (hM : isNumeral M = true) (hm : digitsVal M = m)
    (hS : isNumeral S = true) (hs : digitsVal S = s)
    (hd53 : d ≤ 2 ^ 53) (hm60 : m < 60) (hs60 : s < 60)
    (hp1 : isSepRun p1 = true) (hp2 : isSepRun p2 = true) :
    (Dms.parse (some (String.mk (('-' :: D) ++ p1 ++ M ++ p2 ++ S))) =
        .ok (some (Dms.mk d m s (-1))) ∧
      Dms.parse (some (String.mk (D ++ p1 ++ ('-' :: M) ++ p2 ++ S))) =
        .ok (some (Dms.mk d m s (-1))) ∧
      Dms.parse (some (String.mk (D ++ p1 ++ M ++ p2 ++ ('-' :: S)))) =
        .ok (some (Dms.mk d m s (-1)))) ∧
    (Dms.parse (some (String.mk ((D ++ ['-']) ++ p1 ++ M ++ p2 ++ S))) = .ok none ∧
      Dms.parse (some (String.mk (D ++ p1 ++ (M ++ ['-']) ++ p2 ++ S))) = .ok none ∧
      Dms.parse (some (String.mk (D ++ p1 ++ M ++ p2 ++ (S ++ ['-'])))) = .ok none) := by
  subst hd hm hs
  have cD := count_minus_numeral D hD
  have cM := count_minus_numeral M hM
  have cS := count_minus_numeral S hS
  have c1 := count_minus_sepRun p1 hp1
  have c2 := count_minus_sepRun p2 hp2
  have hq1 : (0 : ℚ) ≤ (digitsVal M : ℚ) ∧ (digitsVal M : ℚ) < 60 :=
    ⟨Nat.cast_nonneg _, by exact_mod_cast hm60⟩
  have hq2 : (0 : ℚ) ≤ (digitsVal S : ℚ) ∧ (digitsVal S : ℚ) < 60 :=
    ⟨Nat.cast_nonneg _, by exact_mod_cast hs60⟩
  have hq0 : (0 : ℚ) ≤ (digitsVal D : ℚ) := Nat.cast_nonneg _
  have bD : digitsVal D ≤ 2 ^ 1023 := exact_bound hd53
  have bM : digitsVal M ≤ 2 ^ 1023 := small_le_bound hm60
  have bS : digitsVal S ≤ 2 ^ 1023 := small_le_bound hs60
  refine ⟨⟨?_, ?_, ?_⟩, ?_, ?_, ?_⟩
  · have hc : (('-' :: D) ++ p1 ++ M ++ p2 ++ S ++ []).count '-' = 1 := by
      simp [List.count_append, List.count_cons, cD, cM, cS, c1, c2]
    have := parse_three_pieces ('-' :: D) M S p1 p2 [] _ _ _
      (isSep_minus_numeral D hD) (isSep_numeral M hM) (numeral_ne_nil M hM)
      (isSep_numeral S hS) (numeral_ne_nil S hS) hp1 hp2 head_none_isSep (le_of_eq hc)
      (parseF_neg_numeral D hD bD) (parseF_numeral M hM bM) (parseF_numeral S hS bS) hq0 hq1 hq2
    rw [hc] at this
    simpa using this
  · have hc : (D ++ p1 ++ ('-' :: M) ++ p2 ++ S ++ []).count '-' = 1 := by
      simp [List.count_append, List.count_cons, cD, cM, cS, c1, c2]
    have := parse_three_pieces D ('-' :: M) S p1 p2 [] _ _ _
      (isSep_numeral D hD) (isSep_minus_numeral M hM) (by simp)
      (isSep_numeral S hS) (numeral_ne_nil S hS) hp1 hp2 head_none_isSep (le_of_eq hc)
      (parseF_numeral D hD bD) (parseF_neg_numeral M hM bM) (parseF_numeral S hS bS) hq0 hq1 hq2
    rw [hc] at this
    simpa using this
  · have hc : (D ++ p1 ++ M ++ p2 ++ ('-' :: S) ++ []).count '-' = 1 := by
      simp [List.count_append, List.count_cons, cD, cM, cS, c1, c2]
    have := parse_three_pieces D M ('-' :: S) p1 p2 [] _ _ _
      (isSep_numeral D hD) (isSep_numeral M hM) (numeral_ne_nil M hM)
      (isSep_minus_numeral S hS) (by simp) hp1 hp2 head_none_isSep (le_of_eq hc)
      (parseF_numeral D hD bD) (parseF_numeral M hM bM) (parseF_neg_numeral S hS bS) hq0 hq1 hq2
    rw [hc] at this
    simpa using this
  · obtain ⟨tl, htl⟩ := splitSeparators_three (D ++ ['-']) M S p1 p2 []
      (isSep_numeral_minus D hD) (isSep_numeral M hM) (numeral_ne_nil M hM)
      (isSep_numeral S hS) (numeral_ne_nil S hS) hp1 hp2 head_none_isSep
    rw [List.append_nil] at htl
    apply parse_none_of_piece
    left
    show isNumeric (.num (parseF ((splitSeparators _).get? 0))) = false
    rw [htl]
    exact parseF_numeral_minus D hD
  · obtain ⟨tl, htl⟩ := splitSeparators_three D (M ++ ['-']) S p1 p2 []
      (isSep_numeral D hD) (isSep_numeral_minus M hM) (by simp)
      (isSep_numeral S hS) (numeral_ne_nil S hS) hp1 hp2 head_none_isSep
    rw [List.append_nil] at htl
    apply parse_none_of_piece
    right; left
    show isNumeric (.num (parseF ((splitSeparators _).get? 1))) = false
    rw [htl]
    exact parseF_numeral_minus M hM
  · obtain ⟨tl, htl⟩ := splitSeparators_three D M (S ++ ['-']) p1 p2 []
      (isSep_numeral D hD) (isSep_numeral M hM) (numeral_ne_nil M hM)
      (isSep_numeral_minus S hS) (by simp) hp1 hp2 head_none_isSep
    rw [List.append_nil] at htl
    apply parse_none_of_piece
    right; right
    show isNumeric (.num (parseF ((splitSeparators _).get? 2))) = false
    rw [htl]
    exact parseF_numeral_minus S hS

/-- Witness for C16: `12 -34 56` parses to `12, 34, 56` with sign `-1`, and `12- 34 56` to
`undefined`. -/
theorem parse_single_minus_placement_witness :
    Dms.parse (some "12 -34 56") = .ok (some (Dms.mk 12 34 56 (-1))) ∧
    Dms.parse (some "12- 34 56") = .ok none := by
  have h := parse_single_minus_placement 12 34 56 "12".data "34".data "56".data " ".data
    " ".data (by decide) (by decide) (by decide) (by decide) (by decide) (by decide)
    (by norm_num) (by decide) (by decide) (by decide) (by decide)
  constructor
  · simpa using h.1.2.1
  · simpa using h.2.1

/-- Counterexample for C16 as stated: in `12 34 56-` a single `-` stands immediately after
the seconds numeral, and the text parses to `undefined`, not to an angle. -/
theorem parse_trailing_minus_rejected : Dms.parse (some "12 34 56-") = .ok none := by
  apply parse_none_of_piece
  right; right
  have hsplit : splitSeparators "12 34 56-".data = ["12".data, "34".data, "56-".data] := by
    decide
  rw [hsplit]
  exact parseF_numeral_minus "56".data (by decide)

/-- C17 (the code at the failing input). In ` 45 30 15` the leading space is a separator
run at the very start, which leaves an empty first piece; the empty piece reads 0, so the
degrees are 0, the minutes 45 and the seconds 30, and the 15 is ignored. Without the leading
space the same text parses to `45, 30, 15`. -/
theorem parse_leading_separator_shifts :
    Dms.parse (some " 45 30 15") = .ok (some (Dms.mk 0 45 30 1)) ∧
    Dms.parse (some "45 30 15") = .ok (some (Dms.mk 45 30 15 1)) := by
  constructor
  · have := parse_three_pieces [] "45".data "30".data " ".data " ".data " 15".data 0 _ _
      (by simp) (isSep_numeral _ (by decide)) (by decide)
      (isSep_numeral _ (by decide)) (by decide) (by decide) (by decide) (by decide) (by decide)
      parseF_empty (parseF_numeral _ (by decide) (le_bound_of_small (by decide)))
      (parseF_numeral _ (by decide) (le_bound_of_small (by decide)))
      (le_refl _) ⟨Nat.cast_nonneg _, by norm_num [show digitsVal "45".data = 45 by decide]⟩
      ⟨Nat.cast_nonneg _, by norm_num [show digitsVal "30".data = 30 by decide]⟩
    have h45 : digitsVal "45".data = 45 := by decide
    have h30 : digitsVal "30".data = 30 := by decide
    have hcnt : ([] ++ " ".data ++ "45".data ++ " ".data ++ "30".data ++ " 15".data).count '-'
        = 0 := by decide
    rw [hcnt, h45, h30] at this
    simpa using this
  · have := parse_triple_text [] "45".data "30".data "15".data " ".data " ".data []
      (Or.inl rfl) (by decide) (by decide) (by decide) (by decide) (by decide) (by simp)
      (by decide) (by decide) (le_bound_of_small (by decide))
    simpa using this

/-! ## The text of `toFixed` -/

theorem digitsVal_append (xs ys : List Char) :
    digitsVal (xs ++ ys) = digitsVal xs * 10 ^ ys.length + digitsVal ys := by
  simp only [digitsVal, List.foldl_append]
  rw [digitsVal_foldl]
  simp [digitsVal]

theorem digitsVal_replicate_zero (j : ℕ) : digitsVal (List.replicate j '0') = 0 := by
  induction j with
  | zero => rfl
  | succ j ih =>
    rw [List.replicate_succ, digitsVal_cons, ih]
    simp

/-- The shape of the text of `toFixed`: an integer part `ip`, and when `f` is not 0 a `.` and
exactly `f` fraction digits `fp`; read together the digits are the number `n`. -/
theorem fixedText_shape (n f : ℕ) :
    ∃ ip fp : List Char,
      fixedText n f = String.mk (ip ++ (if f = 0 then [] else '.' :: fp)) ∧
      isNumeral ip = true ∧ (∀ c ∈ fp, c.isDigit = true) ∧ fp.length = f ∧
      digitsVal (ip ++ fp) = n := by
  obtain ⟨hnum, hval⟩ := toDigits_numeral n
  obtain ⟨hne, hdig⟩ := (isNumeral_iff _).mp hnum
  by_cases hf : f = 0
  · subst hf
    refine ⟨Nat.toDigits 10 n, [], ?_, hnum, by simp, rfl, by simpa using hval⟩
    simp [fixedText]
  · let m := Nat.toDigits 10 n
    let m2 := if m.length ≤ f then List.replicate (f + 1 - m.length) '0' ++ m else m
    let k2 := if m.length ≤ f then f + 1 else m.length
    have hlen : m2.length = k2 := by
      show (if m.length ≤ f then List.replicate (f + 1 - m.length) '0' ++ m else m).length =
        (if m.length ≤ f then f + 1 else m.length)
      split_ifs with h
      · simp only [List.length_append, List.length_replicate]; omega
      · rfl
    have hk2 : f < k2 := by
      show f < (if m.length ≤ f then f + 1 else m.length)
      split_ifs with h <;> omega
    have hdig2 : ∀ c ∈ m2, c.isDigit = true := by
      show ∀ c ∈ (if m.length ≤ f then List.replicate (f + 1 - m.length) '0' ++ m else m),
        c.isDigit = true
      split_ifs with h
      · intro c hc
        rcases List.mem_append.mp hc with h1 | h1
        · rw [(List.mem_replicate.mp h1).2]; decide
        · exact hdig c h1
      · exact hdig
    have hval2 : digitsVal m2 = n := by
      show digitsVal (if m.length ≤ f then List.replicate (f + 1 - m.length) '0' ++ m else m) = n
      split_ifs with h
      · rw [digitsVal_append, digitsVal_replicate_zero]; simpa using hval
      · exact hval
    refine ⟨m2.take (k2 - f), m2.drop (k2 - f), ?_, ?_, ?_, ?_, ?_⟩
    · simp only [fixedText, ne_eq, hf, not_false_eq_true, if_true, if_false]
    · apply (isNumeral_iff _).mpr
      constructor
      · intro h
        have h1 : (m2.take (k2 - f)).length = 0 := by rw [h]; rfl
        rw [List.length_take, hlen] at h1
        omega
      · intro c hc
        exact hdig2 c (List.mem_of_mem_take hc)
    · intro c hc
      exact hdig2 c (List.mem_of_mem_drop hc)
    · rw [List.length_drop, hlen]; omega
    · rw [List.take_append_drop]; exact hval2

theorem mantissa_decimal (ip fp : List Char) (hip : isNumeral ip = true)
    (hfp : ∀ c ∈ fp, c.isDigit = true) :
    mantissa? (ip ++ '.' :: fp) =
      some ((digitsVal ip : ℚ) + (digitsVal fp : ℚ) / 10 ^ fp.length) := by
  obtain ⟨hne, hd⟩ := (isNumeral_iff ip).mp hip
  have hall : fp.all Char.isDigit = true := List.all_eq_true.mpr hfp
  have hipe : ip.isEmpty = false := by
    cases ip with
    | nil => exact absurd rfl hne
    | cons c cs => rfl
  unfold mantissa?
  rw [List.span_eq_take_drop, List.takeWhile_append_of_pos hd,
    List.dropWhile_append_of_pos hd]
  have h1 : List.takeWhile Char.isDigit ('.' :: fp) = [] := by
    rw [List.takeWhile_cons_of_neg (by decide)]
  have h2 : List.dropWhile Char.isDigit ('.' :: fp) = '.' :: fp := by
    rw [List.dropWhile_cons_of_neg (by decide)]
  rw [h1, h2, List.append_nil]
  simp only [hall, hipe, Bool.false_and, Bool.not_false, Bool.and_self, if_true]

theorem stringToNumber_decimal (ip fp : List Char) (hip : isNumeral ip = true)
    (hfp : ∀ c ∈ fp, c.isDigit = true)
    (hb : (digitsVal ip : ℚ) + (digitsVal fp : ℚ) / 10 ^ fp.length < overflowBound) :
    stringToNumber (ip ++ '.' :: fp) =
      .fin ((digitsVal ip : ℚ) + (digitsVal fp : ℚ) / 10 ^ fp.length) := by
  obtain ⟨hne, hd⟩ := (isNumeral_iff ip).mp hip
  have hspan : (ip ++ '.' :: fp).span (fun c => !(c == 'e' || c == 'E')) =
      (ip ++ '.' :: fp, []) := by
    apply span_all
    intro c hc
    have hc2 : c.isDigit = true ∨ c = '.' := by
      rcases List.mem_append.mp hc with h | h
      · exact Or.inl (hd c h)
      · rcases List.mem_cons.mp h with h | h
        · exact Or.inr h
        · exact Or.inl (hfp c h)
    simp only [Bool.not_eq_true', Bool.or_eq_false_iff, beq_eq_false_iff_ne, ne_eq]
    rcases hc2 with h | h
    · constructor <;> (rintro rfl; exact absurd h (by decide))
    · rw [h]; constructor <;> decide
  have huns : unsignedDecimal? (ip ++ '.' :: fp) =
      some ((digitsVal ip : ℚ) + (digitsVal fp : ℚ) / 10 ^ fp.length) := by
    unfold unsignedDecimal?
    rw [hspan]
    exact mantissa_decimal ip fp hip hfp
  cases ip with
  | nil => exact absurd rfl hne
  | cons c cs =>
    have hc := hd c (List.mem_cons_self _ _)
    have h1 : c ≠ '-' := by rintro rfl; exact absurd hc (by decide)
    have h2 : c ≠ '+' := by rintro rfl; exact absurd hc (by decide)
    unfold stringToNumber
    split
    · rename_i heq; exact absurd heq (by simp)
    · rename_i heq; exact absurd (List.cons.inj heq).1 h1
    · rename_i heq; exact absurd (List.cons.inj heq).1 h2
    · rw [huns]
      exact numberOfLiteral_of_lt hb

/-- The number that the text of `toFixed` reads as, when it does not overflow. -/
theorem stringToNumber_fixed (ip fp : List Char) (f : ℕ) (hip : isNumeral ip = true)
    (hfp : ∀ c ∈ fp, c.isDigit = true) (hlen : fp.length = f)
    (hb : (digitsVal (ip ++ fp) : ℚ) / 10 ^ f < overflowBound) :
    stringToNumber (ip ++ (if f = 0 then [] else '.' :: fp)) =
      .fin ((digitsVal (ip ++ fp) : ℚ) / 10 ^ f) := by
  by_cases hf : f = 0
  · subst hf
    have hnil : fp = [] := List.length_eq_zero.mp hlen
    subst hnil
    simp only [List.append_nil, pow_zero, div_one] at hb
    simp only [if_true, List.append_nil, pow_zero, div_one]
    rw [stringToNumber_numeral_literal ip hip, numberOfLiteral_of_lt hb]
  · have heq : (digitsVal ip : ℚ) + (digitsVal fp : ℚ) / 10 ^ fp.length =
        (digitsVal (ip ++ fp) : ℚ) / 10 ^ f := by
      rw [digitsVal_append, hlen]
      have h10 : (10 : ℚ) ^ f ≠ 0 := by positivity
      push_cast
      field_simp
    rw [if_neg hf, stringToNumber_decimal ip fp hip hfp (by rw [heq]; exact hb), heq]

/-- A value of at most 60 units at `f` fraction digits is far below the overflow. -/
theorem fixed_value_bound (n f : ℕ) (h : n ≤ 60 * 10 ^ f) :
    (n : ℚ) / 10 ^ f < overflowBound := by
  have hp : (0 : ℚ) < 10 ^ f := by positivity
  have hle : (n : ℚ) / 10 ^ f ≤ 60 := by
    rw [div_le_iff₀ hp]
    exact_mod_cast h
  exact lt_overflowBound_of_le (le_trans hle (by norm_num))

theorem fixedText_eq_sixty_iff (n f : ℕ) : fixedText n f = "60" ↔ f = 0 ∧ n = 60 := by
  constructor
  · intro h
    obtain ⟨ip, fp, hshape, hip, hfp, hlen, hval⟩ := fixedText_shape n f
    by_cases hf : f = 0
    · subst hf
      have hnil : fp = [] := List.length_eq_zero.mp hlen
      subst hnil
      rw [hshape] at h
      simp only [if_true, List.append_nil] at h hval
      have hip2 : ip = "60".data := congrArg String.data h
      rw [hip2] at hval
      exact ⟨rfl, by rw [← hval]; decide⟩
    · rw [hshape, if_neg hf] at h
      have h2 : ip ++ '.' :: fp = "60".data := congrArg String.data h
      have hmem : '.' ∈ "60".data := by rw [← h2]; simp
      exact absurd hmem (by decide)
  · rintro ⟨rfl, rfl⟩
    decide

/-- The rounded, scaled seconds of a valid angle. -/
theorem scaled_seconds (x : ℚ) (f : ℕ) (h0 : 0 ≤ x) (h60 : x < 60) :
    ((⌊x * 10 ^ f + 1 / 2⌋.toNat : ℕ) : ℚ) ≤ x * 10 ^ f + 1 / 2 ∧
    x * 10 ^ f + 1 / 2 < ((⌊x * 10 ^ f + 1 / 2⌋.toNat : ℕ) : ℚ) + 1 ∧
    ⌊x * 10 ^ f + 1 / 2⌋.toNat ≤ 60 * 10 ^ f := by
  have hp : (0 : ℚ) < 10 ^ f := by positivity
  have hnn : (0 : ℤ) ≤ ⌊x * 10 ^ f + 1 / 2⌋ := Int.floor_nonneg.mpr (by positivity)
  have hcast : ((⌊x * 10 ^ f + 1 / 2⌋.toNat : ℕ) : ℚ) = ((⌊x * 10 ^ f + 1 / 2⌋ : ℤ) : ℚ) := by
    have := Int.toNat_of_nonneg hnn
    exact_mod_cast congrArg (fun z : ℤ => (z : ℚ)) this
  have hle := Int.floor_le (x * 10 ^ f + 1 / 2)
  have hlt := Int.lt_floor_add_one (x * 10 ^ f + 1 / 2)
  refine ⟨by rw [hcast]; exact hle, by rw [hcast]; exact hlt, ?_⟩
  have h1 : ((⌊x * 10 ^ f + 1 / 2⌋.toNat : ℕ) : ℚ) < ((60 * 10 ^ f + 1 : ℕ) : ℚ) := by
    rw [hcast]; push_cast
    have : x * 10 ^ f < 60 * 10 ^ f := by nlinarith
    linarith
  have h2 : ⌊x * 10 ^ f + 1 / 2⌋.toNat < 60 * 10 ^ f + 1 := by exact_mod_cast h1
  omega

/-- A valid angle's sign, as the formatter tests it. -/
theorem sign_text (a : Dms) (hv : a.Valid) :
    (if a.sign < 0 then "-" else "") = (if a.sign = -1 then "-" else "") := by
  rcases hv.2.2.2 with h | h <;> rw [h] <;> norm_num

/-- Formatting when the seconds do not round up to 60. -/
theorem toString_plain (fracStr : ℚ → String) (a : Dms) (f : ℕ) (hv : a.Valid) (hf : f ≤ 100)
    (hN : ⌊a.secs * 10 ^ f + 1 / 2⌋.toNat < 60 * 10 ^ f) :
    Dms.toString fracStr a f =
      .ok ((if a.sign = -1 then "-" else "") ++ numberToString fracStr a.degs ++ "°" ++
        numberToString fracStr a.mins ++ "'" ++ fixedText ⌊a.secs * 10 ^ f + 1 / 2⌋.toNat f ++
        "\"") := by
  obtain ⟨hd0, ⟨hm0, hm60⟩, ⟨hs0, hs60⟩, hg⟩ := hv
  have hbig : a.secs < 10 ^ 21 := by
    have : (60 : ℚ) < 10 ^ 21 := by norm_num
    linarith
  have hfix := toFixed_eq_fixedText fracStr a.secs f hs0 hbig hf
  rw [toString_of_toFixed fracStr a f _ hfix, sign_text a ⟨hd0, ⟨hm0, hm60⟩, ⟨hs0, hs60⟩, hg⟩]
  have hne : (fixedText ⌊a.secs * 10 ^ f + 1 / 2⌋.toNat f == "60") = false := by
    rw [beq_eq_false_iff_ne]
    intro h
    obtain ⟨rfl, h60⟩ := (fixedText_eq_sixty_iff _ _).mp h
    rw [h60] at hN
    norm_num at hN
  have hm : ¬(a.mins = 60) := ne_of_lt hm60
  obtain ⟨ip, fp, hshape, hip, hfp, hlen, hval⟩ :=
    fixedText_shape ⌊a.secs * 10 ^ f + 1 / 2⌋.toNat f
  have hnum : (stringToNumber (fixedText ⌊a.secs * 10 ^ f + 1 / 2⌋.toNat f).data).eqNum 60 =
      false := by
    rw [hshape]
    show (stringToNumber (ip ++ (if f = 0 then [] else '.' :: fp))).eqNum 60 = false
    rw [stringToNumber_fixed ip fp f hip hfp hlen
      (by rw [hval]; exact fixed_value_bound _ f (le_of_lt hN)), hval]
    simp only [JSNum.eqNum, decide_eq_false_iff_not]
    intro h
    have hp : (0 : ℚ) < 10 ^ f := by positivity
    rw [div_eq_iff (ne_of_gt hp)] at h
    have h2 : ⌊a.secs * 10 ^ f + 1 / 2⌋.toNat = 60 * 10 ^ f := by exact_mod_cast h
    omega
  simp only [hne, Bool.false_eq_true, if_false, add_zero, normalize, if_neg hm, hnum,
    NumOrStr.text]

/-! ## Plain formatting -/

theorem natToString_small (n : ℕ) (h : n < 10 ^ 21) :
    natToString n = String.mk (Nat.toDigits 10 n) := by
  simp only [natToString, if_pos h]

/-- C13 (as amended). For every valid angle and every number `f` of fraction digits from 0
to 100 such that the seconds do not round up to 60 at that precision (the integer nearest to
`secs * 10^f` is below `60 * 10^f`), `toString(f)` is exactly: `-` when `sign = -1` and
nothing otherwise, then `degs`, `°`, `mins`, `'`, then the seconds with exactly `f` decimal
places (an integer part, and when `f > 0` a `.` and `f` digits, which together are the digits
of that nearest integer), then `"`. The `-` is rendered even when the degrees are 0: the
angle `0, 0, 30` with sign `-1` formats as `-0°0'30"`. -/
theorem toString_plain_format (fracStr : ℚ → String) :
    (∀ (a : Dms) (f : ℕ), a.Valid → f ≤ 100 →
      ⌊a.secs * 10 ^ f + 1 / 2⌋ < 60 * 10 ^ f →
      ∃ ip fp : List Char,
        Dms.toString fracStr a f =
          .ok ((if a.sign = -1 then "-" else "") ++ numberToString fracStr a.degs ++ "°" ++
            numberToString fracStr a.mins ++ "'" ++
            String.mk (ip ++ (if f = 0 then [] else '.' :: fp)) ++ "\"") ∧
        isNumeral ip = true ∧ (∀ c ∈ fp, c.isDigit = true) ∧ fp.length = f ∧
        (digitsVal (ip ++ fp) : ℤ) = ⌊a.secs * 10 ^ f + 1 / 2⌋) ∧
    Dms.toString fracStr (Dms.mk 0 0 30 (-1)) 0 = .ok "-0°0'30\"" := by
  constructor
  · intro a f hv hf hN
    have hnn : (0 : ℤ) ≤ ⌊a.secs * 10 ^ f + 1 / 2⌋ :=
      Int.floor_nonneg.mpr (by have := hv.2.2.1.1; positivity)
    have hN2 : ⌊a.secs * 10 ^ f + 1 / 2⌋.toNat < 60 * 10 ^ f := by
      have h3 : ((⌊a.secs * 10 ^ f + 1 / 2⌋.toNat : ℕ) : ℤ) < ((60 * 10 ^ f : ℕ) : ℤ) := by
        rw [Int.toNat_of_nonneg hnn]; push_cast; exact hN
      exact_mod_cast h3
    obtain ⟨ip, fp, hshape, hip, hfp, hlen, hval⟩ :=
      fixedText_shape ⌊a.secs * 10 ^ f + 1 / 2⌋.toNat f
    refine ⟨ip, fp, ?_, hip, hfp, hlen, ?_⟩
    · rw [toString_plain fracStr a f hv hf hN2, hshape]
    · rw [hval]; exact Int.toNat_of_nonneg hnn
  · have hv : (Dms.mk 0 0 30 (-1)).Valid := by unfold Dms.Valid; norm_num
    have hfloor : ⌊(30 : ℚ) * 10 ^ 0 + 1 / 2⌋ = 30 := by
      rw [Int.floor_eq_iff]; constructor <;> norm_num
    have h := toString_plain fracStr (Dms.mk 0 0 30 (-1)) 0 hv (by norm_num)
      (by show ⌊(30 : ℚ) * 10 ^ 0 + 1 / 2⌋.toNat < 60 * 10 ^ 0; rw [hfloor]; decide)
    rw [h]
    show Except.ok ((if (-1 : ℚ) = -1 then "-" else "") ++ numberToString fracStr 0 ++ "°" ++
      numberToString fracStr 0 ++ "'" ++ fixedText ⌊(30 : ℚ) * 10 ^ 0 + 1 / 2⌋.toNat 0 ++ "\"")
      = _
    rw [hfloor, numberToString_zero, if_pos rfl]
    rfl

/-- Witness for C13: the angle `12° 30' 36.25"` at 1 fraction digit. -/
theorem toString_plain_format_witness :
    ∃ ip fp : List Char,
      Dms.toString (fun _ => "") (Dms.mk 12 30 (145 / 4) 1) 1 =
        .ok ((if (Dms.mk 12 30 (145 / 4) 1).sign = -1 then "-" else "") ++
          numberToString (fun _ => "") (Dms.mk 12 30 (145 / 4) 1).degs ++ "°" ++
          numberToString (fun _ => "") (Dms.mk 12 30 (145 / 4) 1).mins ++ "'" ++
          String.mk (ip ++ (if 1 = 0 then [] else '.' :: fp)) ++ "\"") ∧
      isNumeral ip = true ∧ (∀ c ∈ fp, c.isDigit = true) ∧ fp.length = 1 ∧
      (digitsVal (ip ++ fp) : ℤ) = ⌊(Dms.mk 12 30 (145 / 4) 1).secs * 10 ^ 1 + 1 / 2⌋ := by
  have hfloor : ⌊(145 / 4 : ℚ) * 10 ^ 1 + 1 / 2⌋ = 363 := by
    rw [Int.floor_eq_iff]; constructor <;> norm_num
  exact (toString_plain_format (fun _ => "")).1 (Dms.mk 12 30 (145 / 4) 1) 1
    (by unfold Dms.Valid; norm_num) (by norm_num)
    (by show ⌊(145 / 4 : ℚ) * 10 ^ 1 + 1 / 2⌋ < 60 * 10 ^ 1; rw [hfloor]; norm_num)

/-- Counterexample for C13 as stated: with 101 fraction digits `toFixed` throws a
RangeError, so `toString(101)` returns no string at all. -/
theorem toString_range_error :
    Dms.toString (fun _ => "") (Dms.mk 0 0 30 (-1)) 101 =
      .error "RangeError: toFixed() digits argument must be between 0 and 100" := rfl

/-! ## The displayed minutes and seconds -/

theorem stringToNumber_zero_text : stringToNumber "0".data = .fin 0 := by
  have hval : digitsVal "0".data = 0 := by decide
  rw [stringToNumber_numeral _ (by decide) (le_bound_of_small (by decide)), hval]
  simp

theorem stringToNumber_natToString (j : ℕ) (hj : j < 10 ^ 21) :
    stringToNumber (natToString j).data = .fin (j : ℚ) := by
  rw [natToString_small j hj]
  show stringToNumber (Nat.toDigits 10 j) = _
  rw [stringToNumber_numeral _ (toDigits_numeral j).1
    (by rw [(toDigits_numeral j).2]; exact le_trans (le_of_lt hj) (by norm_num)),
    (toDigits_numeral j).2]

/-- The minutes as displayed: at most 60 before `normalize`, below 60 after. -/
theorem minutes_text (fracStr : ℚ → String) (j : ℕ) (hj : j ≤ 60) :
    ∃ q : ℚ, stringToNumber ((normalize (.num (j : ℚ))).text fracStr).data = .fin q ∧
      0 ≤ q ∧ q < 60 := by
  by_cases h : j = 60
  · subst h
    refine ⟨0, ?_, le_refl _, by norm_num⟩
    have : normalize (.num ((60 : ℕ) : ℚ)) = .num 0 := by
      simp [normalize]
    rw [this]
    show stringToNumber (numberToString fracStr 0).data = _
    rw [numberToString_zero]
    exact stringToNumber_zero_text
  · have hlt : j < 60 := lt_of_le_of_ne hj h
    have hne : ¬((j : ℚ) = 60) := by exact_mod_cast h
    refine ⟨(j : ℚ), ?_, Nat.cast_nonneg _, by exact_mod_cast hlt⟩
    have : normalize (.num (j : ℚ)) = .num (j : ℚ) := by
      simp only [normalize, if_neg hne]
    rw [this]
    show stringToNumber (numberToString fracStr (j : ℚ)).data = _
    rw [numberToString_natCast]
    exact stringToNumber_natToString j (lt_of_lt_of_le hlt (by norm_num))

/-- The seconds as displayed: the text of `toFixed` reads at most 60, and `normalize` shows
a 60 as `0`. -/
theorem seconds_text (fracStr : ℚ → String) (n f : ℕ) (hn : n ≤ 60 * 10 ^ f) :
    ∃ q : ℚ,
      stringToNumber ((normalize (.str (fixedText n f))).text fracStr).data = .fin q ∧
      0 ≤ q ∧ q < 60 := by
  obtain ⟨ip, fp, hshape, hip, hfp, hlen, hval⟩ := fixedText_shape n f
  have hnum : stringToNumber (fixedText n f).data = .fin ((n : ℚ) / 10 ^ f) := by
    rw [hshape]
    show stringToNumber (ip ++ (if f = 0 then [] else '.' :: fp)) = _
    rw [stringToNumber_fixed ip fp f hip hfp hlen
      (by rw [hval]; exact fixed_value_bound n f hn), hval]
  have hp : (0 : ℚ) < 10 ^ f := by positivity
  by_cases h : (n : ℚ) / 10 ^ f = 60
  · refine ⟨0, ?_, le_refl _, by norm_num⟩
    have : normalize (.str (fixedText n f)) = .num 0 := by
      simp only [normalize, hnum, JSNum.eqNum, h, decide_True, if_true]
    rw [this]
    show stringToNumber (numberToString fracStr 0).data = _
    rw [numberToString_zero]
    exact stringToNumber_zero_text
  · refine ⟨(n : ℚ) / 10 ^ f, ?_, by positivity, ?_⟩
    · have : normalize (.str (fixedText n f)) = .str (fixedText n f) := by
        simp only [normalize, hnum, JSNum.eqNum, h, decide_False, Bool.false_eq_true, if_false]
      rw [this]
      exact hnum
    · have hle : (n : ℚ) / 10 ^ f ≤ 60 := by
        rw [div_le_iff₀ hp]
        exact_mod_cast hn
      exact lt_of_le_of_ne hle h

/-- C20 (as amended). For every valid angle whose `mins` is a natural number and every
number `f` of fraction digits from 0 to 100, `toString(f)` returns the sign, the degrees (the
stored ones or one more), `°`, a minutes field, `'`, a seconds field and `"`, and the minutes
field and the seconds field each read as a number that is at least 0 and strictly below
60. -/
theorem displayed_fields_below_sixty (fracStr : ℚ → String) (a : Dms) (k f : ℕ)
    (hv : a.Valid) (hk : a.mins = k) (hf : f ≤ 100) :
    ∃ (d : ℚ) (mstr sstr : String) (qm qs : ℚ),
      Dms.toString fracStr a f =
        .ok ((if a.sign = -1 then "-" else "") ++ numberToString fracStr d ++ "°" ++ mstr ++
          "'" ++ sstr ++ "\"") ∧
      (d = a.degs ∨ d = a.degs + 1) ∧
      stringToNumber mstr.data = .fin qm ∧ 0 ≤ qm ∧ qm < 60 ∧
      stringToNumber sstr.data = .fin qs ∧ 0 ≤ qs ∧ qs < 60 := by
  obtain ⟨hd0, ⟨hm0, hm60⟩, ⟨hs0, hs60⟩, hg⟩ := hv
  have hbig : a.secs < 10 ^ 21 := by
    have : (60 : ℚ) < 10 ^ 21 := by norm_num
    linarith
  have hk60 : k < 60 := by rw [hk] at hm60; exact_mod_cast hm60
  have hfix := toFixed_eq_fixedText fracStr a.secs f hs0 hbig hf
  obtain ⟨qs, hqs, hqs0, hqs60⟩ :=
    seconds_text fracStr ⌊a.secs * 10 ^ f + 1 / 2⌋.toNat f (scaled_seconds a.secs f hs0 hs60).2.2
  rw [toString_of_toFixed fracStr a f _ hfix, sign_text a ⟨hd0, ⟨hm0, hm60⟩, ⟨hs0, hs60⟩, hg⟩]
  by_cases h60 : (fixedText ⌊a.secs * 10 ^ f + 1 / 2⌋.toNat f == "60") = true
  · obtain ⟨qm, hqm, hqm0, hqm60⟩ := minutes_text fracStr (k + 1) (by omega)
    have hm1 : a.mins + 1 = ((k + 1 : ℕ) : ℚ) := by rw [hk]; push_cast; rfl
    refine ⟨a.degs + 1, _, _, qm, qs, ?_, Or.inr rfl, hqm, hqm0, hqm60, hqs, hqs0, hqs60⟩
    simp only [h60, if_true, hm1]
  · obtain ⟨qm, hqm, hqm0, hqm60⟩ := minutes_text fracStr k (by omega)
    refine ⟨a.degs, _, _, qm, qs, ?_, Or.inl rfl, hqm, hqm0, hqm60, hqs, hqs0, hqs60⟩
    simp only [h60, Bool.false_eq_true, if_false, add_zero, hk]

/-- Witness for C20: the angle `10° 59' 59.99"` at 1 fraction digit. -/
theorem displayed_fields_below_sixty_witness :
    ∃ (d : ℚ) (mstr sstr : String) (qm qs : ℚ),
      Dms.toString (fun _ => "") (Dms.mk 10 59 (5999 / 100) 1) 1 =
        .ok ((if (Dms.mk 10 59 (5999 / 100) 1).sign = -1 then "-" else "") ++
          numberToString (fun _ => "") d ++ "°" ++ mstr ++ "'" ++ sstr ++ "\"") ∧
      (d = (Dms.mk 10 59 (5999 / 100) 1).degs ∨ d = (Dms.mk 10 59 (5999 / 100) 1).degs + 1) ∧
      stringToNumber mstr.data = .fin qm ∧ 0 ≤ qm ∧ qm < 60 ∧
      stringToNumber sstr.data = .fin qs ∧ 0 ≤ qs ∧ qs < 60 :=
  displayed_fields_below_sixty (fun _ => "") (Dms.mk 10 59 (5999 / 100) 1) 59 1
    (by unfold Dms.Valid; norm_num) (by norm_num) (by norm_num)

/-- Counterexample for C20 as stated: with 101 fraction digits `toFixed` throws a RangeError,
so `toString(101)` returns no string and there are no fields to read. -/
theorem toString_no_fields_beyond_hundred :
    Dms.toString (fun _ => "") (Dms.mk 10 59 (5999 / 100) 1) 101 =
      .error "RangeError: toFixed() digits argument must be between 0 and 100" := rfl

/-! ## Parsing what `toString` wrote -/

theorem isSep_fixed (ip fp : List Char) (hip : isNumeral ip = true)
    (hfp : ∀ c ∈ fp, c.isDigit = true) : ∀ c ∈ ip ++ '.' :: fp, isSep c = false := by
  intro c hc
  rcases List.mem_append.mp hc with h | h
  · exact isSep_numeral ip hip c h
  · rcases List.mem_cons.mp h with h | h
    · rw [h]; decide
    · exact isSep_of_isDigit (hfp c h)

theorem count_minus_fixed (ip fp : List Char) (hip : isNumeral ip = true)
    (hfp : ∀ c ∈ fp, c.isDigit = true) : (ip ++ '.' :: fp).count '-' = 0 := by
  apply List.count_eq_zero.mpr
  intro hc
  rcases List.mem_append.mp hc with h | h
  · exact ne_minus_of_isDigit (((isNumeral_iff ip).mp hip).2 _ h) rfl
  · rcases List.mem_cons.mp h with h | h
    · exact absurd h (by decide)
    · exact ne_minus_of_isDigit (hfp _ h) rfl

/-- The round trip through `toString(6)` when the seconds do not round up to 60. -/
theorem parse_toString_six (fracStr : ℚ → String) (a : Dms) (n k : ℕ) (hv : a.Valid)
    (hn : a.degs = n) (hn21 : n < 10 ^ 21) (hk : a.mins = k)
    (hN : ⌊a.secs * 10 ^ 6 + 1 / 2⌋.toNat < 60 * 10 ^ 6) :
    ∃ s : String, Dms.toString fracStr a 6 = .ok s ∧
      Dms.parse (some s) =
        .ok (some (Dms.mk a.degs a.mins ((⌊a.secs * 10 ^ 6 + 1 / 2⌋.toNat : ℚ) / 10 ^ 6)
          a.sign)) := by
  obtain ⟨ip, fp, hshape, hip, hfp, hlen, hval⟩ :=
    fixedText_shape ⌊a.secs * 10 ^ 6 + 1 / 2⌋.toNat 6
  have hk60 : k < 60 := by
    have := hv.2.1.2
    rw [hk] at this; exact_mod_cast this
  obtain ⟨hD, hDv⟩ := toDigits_numeral n
  obtain ⟨hM, hMv⟩ := toDigits_numeral k
  refine ⟨_, toString_plain fracStr a 6 hv (by norm_num) hN, ?_⟩
  have hsign : a.sign = 1 ∨ a.sign = -1 := hv.2.2.2
  -- the leading sign, as characters
  have hsg : ∃ sg : List Char, (sg = [] ∨ sg = ['-']) ∧
      (if a.sign = -1 then "-" else "") = String.mk sg ∧
      (if sg = [] then (1 : ℚ) else -1) = a.sign := by
    rcases hsign with h | h
    · refine ⟨[], Or.inl rfl, ?_, ?_⟩
      · rw [h, if_neg (by norm_num)]
      · rw [h]; simp
    · refine ⟨['-'], Or.inr rfl, ?_, ?_⟩
      · rw [h, if_pos rfl]
      · rw [h]; simp
  obtain ⟨sg, hsg1, hsg2, hsg3⟩ := hsg
  have hstr : (if a.sign = -1 then "-" else "") ++ numberToString fracStr a.degs ++ "°" ++
      numberToString fracStr a.mins ++ "'" ++ fixedText ⌊a.secs * 10 ^ 6 + 1 / 2⌋.toNat 6 ++ "\""
      = String.mk ((sg ++ Nat.toDigits 10 n) ++ "°".data ++ Nat.toDigits 10 k ++ "'".data ++
          (ip ++ '.' :: fp) ++ "\"".data) := by
    rw [hn, hk, numberToString_natCast, numberToString_natCast, natToString_small n hn21,
      natToString_small k (lt_trans hk60 (by norm_num)), hshape, hsg2]
    apply String.ext
    simp only [String.data_append, if_neg (show ¬(6 = 0) by norm_num)]
  rw [hstr]
  have hcount : ((sg ++ Nat.toDigits 10 n) ++ "°".data ++ Nat.toDigits 10 k ++ "'".data ++
      (ip ++ '.' :: fp) ++ "\"".data).count '-' = (if sg = [] then 0 else 1) := by
    have c1 : "°".data.count '-' = 0 := by decide
    have c2 : "'".data.count '-' = 0 := by decide
    have c3 : "\"".data.count '-' = 0 := by decide
    simp only [List.count_append, count_minus_numeral _ hD, count_minus_numeral _ hM,
      count_minus_fixed ip fp hip hfp, count_minus_sign sg hsg1, c1, c2, c3, add_zero]
  have hq2 : parseF (some (ip ++ '.' :: fp)) =
      .fin ((⌊a.secs * 10 ^ 6 + 1 / 2⌋.toNat : ℚ) / 10 ^ 6) := by
    have := stringToNumber_fixed ip fp 6 hip hfp hlen
      (by rw [hval]; exact fixed_value_bound _ 6 (le_of_lt hN))
    rw [if_neg (show ¬(6 = 0) by norm_num), hval] at this
    simp only [parseF, this, JSNum.abs]
    rw [abs_of_nonneg (by positivity)]
  have hp := parse_three_pieces (sg ++ Nat.toDigits 10 n) (Nat.toDigits 10 k) (ip ++ '.' :: fp)
    "°".data "'".data "\"".data (n : ℚ) (k : ℚ) _
    (isSep_signed_numeral sg _ hsg1 hD) (isSep_numeral _ hM) (numeral_ne_nil _ hM)
    (isSep_fixed ip fp hip hfp) (by simp) (by decide) (by decide) (by decide)
    (by rw [hcount]; split_ifs <;> omega)
    (by rw [parseF_signed_numeral sg _ hsg1 hD
      (by rw [hDv]; exact le_trans (le_of_lt hn21) (by norm_num)), hDv])
    (by rw [parseF_numeral _ hM (by rw [hMv]; exact small_le_bound hk60), hMv]) hq2
    (Nat.cast_nonneg _) ⟨Nat.cast_nonneg _, by exact_mod_cast hk60⟩
    ⟨by positivity, by
      rw [div_lt_iff₀ (by positivity)]
      exact_mod_cast hN⟩
  rw [hp, hcount, hn, hk, ← hsg3]
  rcases hsg1 with rfl | rfl <;> simp

/-- C14 (as amended). For every valid angle `a` whose `degs` is a natural number below
`10^21`, whose `mins` is a natural number and whose seconds do not round up to 60 at 6
fraction digits, `Dms.parse(a.toString(6))` returns an angle `b` with the degrees, minutes
and sign of `a`, and `|b.toDecimal() - a.toDecimal()|` is at most half a unit of the sixth
decimal place of a second, `0.0000005 / 3600` degrees. -/
theorem parse_inverts_toString (fracStr : ℚ → String) (a : Dms) (n k : ℕ) (hv : a.Valid)
    (hn : a.degs = n) (hn21 : n < 10 ^ 21) (hk : a.mins = k)
    (hN : ⌊a.secs * 10 ^ 6 + 1 / 2⌋ < 60 * 10 ^ 6) :
    ∃ (s : String) (b : Dms), Dms.toString fracStr a 6 = .ok s ∧
      Dms.parse (some s) = .ok (some b) ∧
      b.degs = a.degs ∧ b.mins = a.mins ∧ b.sign = a.sign ∧
      |b.toDecimal - a.toDecimal| ≤ 1 / 2 / 10 ^ 6 / 3600 := by
  obtain ⟨hd0, ⟨hm0, hm60⟩, ⟨hs0, hs60⟩, hg⟩ := hv
  have hnn : (0 : ℤ) ≤ ⌊a.secs * 10 ^ 6 + 1 / 2⌋ := Int.floor_nonneg.mpr (by positivity)
  have hN2 : ⌊a.secs * 10 ^ 6 + 1 / 2⌋.toNat < 60 * 10 ^ 6 := by
    have := Int.toNat_of_nonneg hnn
    omega
  obtain ⟨s, hs1, hs2⟩ := parse_toString_six fracStr a n k
    ⟨hd0, ⟨hm0, hm60⟩, ⟨hs0, hs60⟩, hg⟩ hn hn21 hk hN2
  refine ⟨s, _, hs1, hs2, rfl, rfl, rfl, ?_⟩
  obtain ⟨h1, h2, _⟩ := scaled_seconds a.secs 6 hs0 hs60
  have hdiff : (Dms.mk a.degs a.mins ((⌊a.secs * 10 ^ 6 + 1 / 2⌋.toNat : ℚ) / 10 ^ 6)
      a.sign).toDecimal - a.toDecimal =
      a.sign * (((⌊a.secs * 10 ^ 6 + 1 / 2⌋.toNat : ℚ) / 10 ^ 6 - a.secs) / 3600) := by
    simp only [Dms.toDecimal]; ring
  rw [hdiff, abs_mul]
  have hsabs : |a.sign| = 1 := by rcases hg with h | h <;> rw [h] <;> norm_num
  rw [hsabs, one_mul, abs_le]
  constructor
  · rw [le_div_iff₀ (by norm_num), le_sub_iff_add_le, le_div_iff₀ (by norm_num)]
    linarith
  · rw [div_le_iff₀ (by norm_num), sub_le_iff_le_add, div_le_iff₀ (by norm_num)]
    linarith


/-- Witness for C14: the angle `12° 30' 36.25"` with sign `-1`. -/
theorem parse_inverts_toString_witness :
    ∃ (s : String) (b : Dms),
      Dms.toString (fun _ => "") (Dms.mk 12 30 (145 / 4) (-1)) 6 = .ok s ∧
      Dms.parse (some s) = .ok (some b) ∧
      b.degs = (Dms.mk 12 30 (145 / 4) (-1)).degs ∧
      b.mins = (Dms.mk 12 30 (145 / 4) (-1)).mins ∧
      b.sign = (Dms.mk 12 30 (145 / 4) (-1)).sign ∧
      |b.toDecimal - (Dms.mk 12 30 (145 / 4) (-1)).toDecimal| ≤ 1 / 2 / 10 ^ 6 / 3600 := by
  have hfloor : ⌊(145 / 4 : ℚ) * 10 ^ 6 + 1 / 2⌋ = 36250000 := by
    rw [Int.floor_eq_iff]; constructor <;> norm_num
  exact parse_inverts_toString (fun _ => "") (Dms.mk 12 30 (145 / 4) (-1)) 12 30
    (by unfold Dms.Valid; norm_num) (by norm_num) (by norm_num) (by norm_num)
    (by show ⌊(145 / 4 : ℚ) * 10 ^ 6 + 1 / 2⌋ < 60 * 10 ^ 6; rw [hfloor]; norm_num)

/-- Counterexample for C14 as stated, at two valid angles with natural degrees and minutes.
The angle `10^21° 0' 0"` formats at 6 digits as `1e+21°0'0.000000"`, which parses to
`1° 21' 0"`. The angle `10° 20' 59.9999999"`, whose seconds round up to 60 at 6 digits,
formats as `10°20'0"`, which parses to `10° 20' 0"`. In both cases the decimal value of the
parsed angle is further from the original than `0.0000005 / 3600`. -/
theorem parse_toString_not_inverse :
    (Dms.toString (fun _ => "") (Dms.mk (10 ^ 21) 0 0 1) 6 = .ok "1e+21°0'0.000000\"" ∧
      Dms.parse (some "1e+21°0'0.000000\"") = .ok (some (Dms.mk 1 21 0 1)) ∧
      ¬(|(Dms.mk 1 21 0 1).toDecimal - (Dms.mk (10 ^ 21) 0 0 1).toDecimal| ≤
        1 / 2 / 10 ^ 6 / 3600)) ∧
    (Dms.toString (fun _ => "") (Dms.mk 10 20 (599999999 / 10000000) 1) 6 = .ok "10°20'0\"" ∧
      Dms.parse (some "10°20'0\"") = .ok (some (Dms.mk 10 20 0 1)) ∧
      ¬(|(Dms.mk 10 20 0 1).toDecimal - (Dms.mk 10 20 (599999999 / 10000000) 1).toDecimal| ≤
        1 / 2 / 10 ^ 6 / 3600)) := by
  refine ⟨⟨?_, ?_, ?_⟩, ?_, ?_, ?_⟩
  · have hfloor : ⌊(0 : ℚ) * 10 ^ 6 + 1 / 2⌋ = 0 := by
      rw [Int.floor_eq_iff]; constructor <;> norm_num
    have hfix : toFixed (fun _ => "") 0 6 = .ok "0.000000" := by
      rw [toFixed_eq_fixedText (fun _ => "") 0 6 (le_refl _) (by norm_num) (by norm_num),
        hfloor]
      rfl
    rw [toString_of_toFixed (fun _ => "") (Dms.mk (10 ^ 21) 0 0 1) 6 "0.000000" hfix]
    have hs : (stringToNumber "0.000000".data).eqNum 60 = false := by
      have h1 : stringToNumber "0.000000".data =
          numberOfLiteral ((digitsVal "0".data : ℚ) + (digitsVal "000000".data : ℚ) / 10 ^ 6) :=
        rfl
      have hv1 : digitsVal "0".data = 0 := by decide
      have hv2 : digitsVal "000000".data = 0 := by decide
      rw [h1, hv1, hv2, numberOfLiteral_of_lt (lt_overflowBound_of_le (by norm_num))]
      simp [JSNum.eqNum]
    have hne : ("0.000000" == "60") = false := by decide
    have hd : (10 : ℚ) ^ 21 + 0 = ((10 ^ 21 : ℕ) : ℚ) := by norm_num
    have hm : (0 : ℚ) + 0 = ((0 : ℕ) : ℚ) := by norm_num
    have hm60 : ¬(((0 : ℕ) : ℚ) = 60) := by norm_num
    have hsign : ¬((1 : ℚ) < 0) := by norm_num
    simp only [hne, Bool.false_eq_true, if_false, hd, hm, normalize, hs, NumOrStr.text,
      numberToString_natCast, if_neg hm60, if_neg hsign]
    rfl
  · have h1 : digitsVal "1".data = 1 := by decide
    have h21 : digitsVal "21".data = 21 := by decide
    have h0 : digitsVal "0".data = 0 := by decide
    have := parse_three_pieces "1".data "21".data "0".data "e+".data "°".data
      "'0.000000\"".data _ _ _
      (isSep_numeral _ (by decide)) (isSep_numeral _ (by decide)) (by decide)
      (isSep_numeral _ (by decide)) (by decide) (by decide) (by decide) (by decide) (by decide)
      (parseF_numeral _ (by decide) (le_bound_of_small (by decide)))
      (parseF_numeral _ (by decide) (le_bound_of_small (by decide)))
      (parseF_numeral _ (by decide) (le_bound_of_small (by decide)))
      (Nat.cast_nonneg _) ⟨Nat.cast_nonneg _, by rw [h21]; norm_num⟩
      ⟨Nat.cast_nonneg _, by rw [h0]; norm_num⟩
    have hcnt : ("1".data ++ "e+".data ++ "21".data ++ "°".data ++ "0".data ++
        "'0.000000\"".data).count '-' = 0 := by decide
    rw [hcnt, h1, h21, h0] at this
    simpa using this
  · simp only [Dms.toDecimal]
    norm_num [abs_le]
  · have hfloor : ⌊(599999999 / 10000000 : ℚ) * 10 ^ 6 + 1 / 2⌋ = 60000000 := by
      rw [Int.floor_eq_iff]; constructor <;> norm_num
    have hfix : toFixed (fun _ => "") (599999999 / 10000000) 6 = .ok "60.000000" := by
      rw [toFixed_eq_fixedText (fun _ => "") (599999999 / 10000000) 6 (by norm_num)
        (by norm_num) (by norm_num), hfloor]
      rfl
    rw [toString_of_toFixed (fun _ => "") (Dms.mk 10 20 (599999999 / 10000000) 1) 6
      "60.000000" hfix]
    have hs : (stringToNumber "60.000000".data).eqNum 60 = true := by
      have h1 : stringToNumber "60.000000".data =
          numberOfLiteral
            ((digitsVal "60".data : ℚ) + (digitsVal "000000".data : ℚ) / 10 ^ 6) := rfl
      have hv1 : digitsVal "60".data = 60 := by decide
      have hv2 : digitsVal "000000".data = 0 := by decide
      rw [h1, hv1, hv2, numberOfLiteral_of_lt (lt_overflowBound_of_le (by norm_num))]
      simp [JSNum.eqNum]
    have hne : ("60.000000" == "60") = false := by decide
    have hd : (10 : ℚ) + 0 = ((10 : ℕ) : ℚ) := by norm_num
    have hm : (20 : ℚ) + 0 = ((20 : ℕ) : ℚ) := by norm_num
    have hm60 : ¬(((20 : ℕ) : ℚ) = 60) := by norm_num
    have hsign : ¬((1 : ℚ) < 0) := by norm_num
    simp only [hne, Bool.false_eq_true, if_false, hd, hm, normalize, hs, NumOrStr.text,
      numberToString_natCast, numberToString_zero, if_neg hm60, if_neg hsign, if_true]
    rfl
  · have h10 : digitsVal "10".data = 10 := by decide
    have h20 : digitsVal "20".data = 20 := by decide
    have h0 : digitsVal "0".data = 0 := by decide
    have := parse_three_pieces "10".data "20".data "0".data "°".data "'".data "\"".data _ _ _
      (isSep_numeral _ (by decide)) (isSep_numeral _ (by decide)) (by decide)
      (isSep_numeral _ (by decide)) (by decide) (by decide) (by decide) (by decide) (by decide)
      (parseF_numeral _ (by decide) (le_bound_of_small (by decide)))
      (parseF_numeral _ (by decide) (le_bound_of_small (by decide)))
      (parseF_numeral _ (by decide) (le_bound_of_small (by decide)))
      (Nat.cast_nonneg _) ⟨Nat.cast_nonneg _, by rw [h20]; norm_num⟩
      ⟨Nat.cast_nonneg _, by rw [h0]; norm_num⟩
    have hcnt : ("10".data ++ "°".data ++ "20".data ++ "'".data ++ "0".data ++
        "\"".data).count '-' = 0 := by decide
    rw [hcnt, h10, h20, h0] at this
    simpa using this
  · simp only [Dms.toDecimal]
    norm_num [abs_le]

/-! ## Properties of the `angle` filter -/

theorem isNumericValue_str (fracStr : ℚ → String) (s : String) :
    isNumericValue fracStr (.str s) =
      .ok (!isNaN (parseFloatString s) && isFinite (.num (toNumberString s))) := rfl

theorem angleFilter_of_numeric (fracStr : ℚ → String) (v : FilterValue)
    (h : isNumericValue fracStr v = .ok true) : angleFilter fracStr v = .ok v := by
  unfold angleFilter
  rw [h]

theorem angleFilter_of_text (fracStr : ℚ → String) (s : String)
    (h : isNumericValue fracStr (.str s) = .ok false) :
    angleFilter fracStr (.str s) =
      (match Dms.parse (some s) with
      | .error e => .error e
      | .ok (some dms) => .ok (.num (.fin dms.toDecimal))
      | .ok none => .ok .undefined) := by
  unfold angleFilter
  rw [h]
  rfl

/-- C18 (the code at the failing input). The `angle` filter returns a value it classifies
as numeric as it is (`return value`). For the numeric string `"12.5"` the result is therefore
the string `"12.5"` itself and not the number 12.5, and the same holds of every string that
`isNumeric` accepts. The other cases are as the claim says: a number that is numeric is
returned as that number, and a text that is not numeric gives the decimal value of the angle
`Dms.parse` finds, as `45 30 15` does, or no value. -/
theorem angleFilter_returns_numeric_string_unconverted (fracStr : ℚ → String) :
    angleFilter fracStr (.str "12.5") = .ok (.str "12.5") ∧
    (∀ s : String, isNumericValue fracStr (.str s) = .ok true →
      angleFilter fracStr (.str s) = .ok (.str s)) ∧
    (∀ q : ℚ, angleFilter fracStr (.num (.fin q)) = .ok (.num (.fin q))) ∧
    angleFilter fracStr (.str "45 30 15") = .ok (.num (.fin (45 + 30 / 60 + 15 / 3600))) ∧
    angleFilter fracStr (.str "") = .ok .undefined := by
  have h12 : digitsVal "12".data = 12 := by decide
  have h5 : digitsVal "5".data = 5 := by decide
  have hnum : isNumericValue fracStr (.str "12.5") = .ok true := by
    have hpf : parseFloatString "12.5" =
        numberOfLiteral (((digitsVal "12".data : ℚ) +
          (digitsVal "5".data : ℚ) / 10 ^ 1) * (10 : ℚ) ^ (0 : ℤ)) := rfl
    have htn : toNumberString "12.5" = stringToNumber ("12".data ++ '.' :: "5".data) := rfl
    rw [h12, h5, numberOfLiteral_of_lt (lt_overflowBound_of_le (by norm_num))] at hpf
    rw [stringToNumber_decimal "12".data "5".data (by decide) (by decide)
      (by rw [h12, h5]; exact lt_overflowBound_of_le (by norm_num))] at htn
    rw [isNumericValue_str, hpf, htn]
    rfl
  have htext : isNumericValue fracStr (.str "45 30 15") = .ok false := by
    have htn : toNumberString "45 30 15" = .nan := rfl
    rw [isNumericValue_str, htn, show isFinite (.num .nan) = false from rfl, Bool.and_false]
  refine ⟨?_, ?_, ?_, ?_, ?_⟩
  · exact angleFilter_of_numeric fracStr _ hnum
  · intro s hs
    exact angleFilter_of_numeric fracStr _ hs
  · intro q
    exact angleFilter_of_numeric fracStr _ rfl
  · have hp : Dms.parse (some "45 30 15") = .ok (some (Dms.mk 45 30 15 1)) := by
      have := parse_triple_text [] "45".data "30".data "15".data " ".data " ".data []
        (Or.inl rfl) (by decide) (by decide) (by decide) (by decide) (by decide) (by simp)
        (by decide) (by decide) (le_bound_of_small (by decide))
      simpa using this
    rw [angleFilter_of_text fracStr "45 30 15" htext, hp]
    simp only [Dms.toDecimal, one_mul]
  · rw [angleFilter_of_text fracStr "" rfl]
    rfl

/-! ## Numerals beyond the range of binary64 -/

theorem hugeNumeral_isNumeral : isNumeral hugeNumeral = true := by
  apply (isNumeral_iff _).mpr
  refine ⟨List.cons_ne_nil _ _, ?_⟩
  intro c hc
  rcases List.mem_cons.mp hc with h | h
  · rw [h]; decide
  · rw [(List.mem_replicate.mp h).2]; decide

theorem hugeNumeral_val : digitsVal hugeNumeral = 10 ^ 309 := by
  unfold hugeNumeral
  rw [digitsVal_cons, digitsVal_replicate_zero, List.length_replicate]
  have h1 : ('1'.toNat - 48) = 1 := by decide
  rw [h1, one_mul, add_zero]

/-- The numeral of `10^309` is at or above the bound from which a literal overflows. -/
theorem hugeNumeral_overflows : numberOfLiteral (digitsVal hugeNumeral : ℚ) = .posInf := by
  apply numberOfLiteral_of_le
  rw [hugeNumeral_val, Nat.cast_pow]
  unfold overflowBound
  norm_num

/-- A piece that is the numeral of `10^309`, with or without a `-` in front, reads as
`Infinity`, which is not numeric. -/
theorem parseF_hugeNumeral : isNumeric (.num (parseF (some hugeNumeral))) = false := by
  simp only [parseF, stringToNumber_numeral_literal _ hugeNumeral_isNumeral,
    hugeNumeral_overflows]
  rfl

theorem parseF_neg_hugeNumeral :
    isNumeric (.num (parseF (some ('-' :: hugeNumeral)))) = false := by
  simp only [parseF, stringToNumber_neg_numeral_literal _ hugeNumeral_isNumeral,
    hugeNumeral_overflows]
  rfl

/-- Counterexample for C6 as stated: `hugeNumeral` is a decimal numeral of the natural number
`10^309`, and the well-formed triple made of it, with ` 30 15` behind, parses to `undefined`:
the degrees piece reads `Infinity`, which is not numeric. -/
theorem parse_triple_overflowing_degrees :
    isNumeral hugeNumeral = true ∧ digitsVal hugeNumeral = 10 ^ 309 ∧
    Dms.parse (some (String.mk (hugeNumeral ++ " ".data ++ "30".data ++ " ".data ++ "15".data)))
      = .ok none := by
  refine ⟨hugeNumeral_isNumeral, hugeNumeral_val, ?_⟩
  obtain ⟨tl, htl⟩ := splitSeparators_three hugeNumeral "30".data "15".data " ".data " ".data []
    (isSep_numeral _ hugeNumeral_isNumeral) (isSep_numeral _ (by decide)) (by decide)
    (isSep_numeral _ (by decide)) (by decide) (by decide) (by decide) head_none_isSep
  rw [List.append_nil] at htl
  apply parse_none_of_piece
  left
  show isNumeric (.num (parseF ((splitSeparators _).get? 0))) = false
  rw [htl]
  exact parseF_hugeNumeral

/-- Counterexample for C8 as stated: the numeral of `10^309` alone, and the same numeral with
` 30` behind, parse to `undefined` and not to an angle with the missing pieces at 0. -/
theorem parse_single_overflowing_degrees :
    isNumeral hugeNumeral = true ∧ digitsVal hugeNumeral = 10 ^ 309 ∧
    Dms.parse (some (String.mk hugeNumeral)) = .ok none ∧
    Dms.parse (some (String.mk (hugeNumeral ++ " ".data ++ "30".data))) = .ok none := by
  refine ⟨hugeNumeral_isNumeral, hugeNumeral_val, ?_, ?_⟩
  · obtain ⟨tl, htl⟩ := splitSeparators_token_trail hugeNumeral []
      (isSep_numeral _ hugeNumeral_isNumeral) (by simp)
    rw [List.append_nil] at htl
    apply parse_none_of_piece
    left
    show isNumeric (.num (parseF ((splitSeparators _).get? 0))) = false
    rw [htl]
    exact parseF_hugeNumeral
  · have hsplit := splitSeparators_token_run hugeNumeral " ".data "30".data
      (isSep_numeral _ hugeNumeral_isNumeral) (by decide) (by decide)
    apply parse_none_of_piece
    left
    show isNumeric (.num (parseF ((splitSeparators (hugeNumeral ++ " ".data ++ "30".data)).get?
      0))) = false
    rw [List.append_assoc, hsplit]
    exact parseF_hugeNumeral

/-- The same overflow with the `-` in front of the degrees: `-` and the numeral of `10^309`
with ` 34 56` behind parse to `undefined`, which is why the placement rule of the `-` is
stated for degrees up to `2^53`. -/
theorem parse_minus_overflowing_degrees :
    Dms.parse (some (String.mk
      (('-' :: hugeNumeral) ++ " ".data ++ "34".data ++ " ".data ++ "56".data))) = .ok none := by
  obtain ⟨tl, htl⟩ := splitSeparators_three ('-' :: hugeNumeral) "34".data "56".data " ".data
    " ".data [] (isSep_minus_numeral _ hugeNumeral_isNumeral) (isSep_numeral _ (by decide))
    (by decide) (isSep_numeral _ (by decide)) (by decide) (by decide) (by decide)
    head_none_isSep
  rw [List.append_nil] at htl
  apply parse_none_of_piece
  left
  show isNumeric (.num (parseF ((splitSeparators _).get? 0))) = false
  rw [htl]
  exact parseF_neg_hugeNumeral

end AngularDms
